import Mathlib

/-!
Verification development for `PQC_lib.py`, a parameterised-quantum-circuit
library built on a linear-algebra collaborator (qutip).  The linear algebra
itself (operators, states, tensor products, exponentials) is out of scope of
the source and is modelled by an abstract collaborator structure `Collab`;
gates, blocks and the circuit are translated from the source.  Angles are an
abstract type `A` (floats in the source), operators `Op`, states `St`.
Python attribute errors / index errors are modelled by `Option`.
-/

/-- The linear-algebra collaborator (qutip plus `genFockOp` from the repo's
`helper_functions` module, which is not under src/).  Every field is an
opaque constructor of operators or states used by `PQC_lib.py`:
`mulOO`/`addOO` are operator product and sum, `applyOS` is operator-on-state
application, `rx`/`ry`/`rz` are `qt.qip.operations.rx/ry/rz (theta, N,
target)`, `x_gate`, `phasegate`, `t_gate`, `cnot`, `cz_gate`, `sqrtiswap`
mirror the corresponding qutip builders, `sqrtm` models `np.sqrt` on an
operator, `expm` the operator exponential, `negOp` is scalar multiplication
by -1, `scaleNegHalfI` is scalar multiplication by -i/2, `scaleExpArg t` is
scalar multiplication by -i*0.5*t, `expectV` is `qt.expect`, `initState n`
is `qt.tensor([qt.basis(2,0)]*n)`, `zeroA` is the float 0, `piOver2` the
float pi/2, `negA` negation of an angle.
Modelled from the spec: `genFock p q N` is `genFockOp(p, q, N, 2)` from
`helper_functions` (not in src/): it embeds the single-qubit operator `p`
on qubit `q` of an `N`-qubit space, identity elsewhere; it is opaque here. -/
structure Collab (A Op St : Type) where
  mulOO : Op → Op → Op
  addOO : Op → Op → Op
  applyOS : Op → St → St
  one : Op
  zero : Op
  sigmax : Op
  sigmay : Op
  sigmaz : Op
  rx : A → ℕ → ℕ → Op
  ry : A → ℕ → ℕ → Op
  rz : A → ℕ → ℕ → Op
  x_gate : ℕ → ℕ → Op
  phasegate : A → ℕ → ℕ → Op
  t_gate : ℕ → ℕ → Op
  cnot : ℕ → ℕ → ℕ → Op
  cz_gate : ℕ → ℕ → ℕ → Op
  sqrtiswap : ℕ → ℕ → ℕ → Op
  sqrtm : Op → Op
  expm : Op → Op
  genFock : Op → ℕ → ℕ → Op
  negOp : Op → Op
  scaleNegHalfI : Op → Op
  scaleExpArg : A → Op → Op
  expectV : Op → St → A
  initState : ℕ → St
  zeroA : A
  piOver2 : A
  negA : A → A

/-- The entangling-gate classes that can be passed to `CHAIN` / `ALLTOALL`
as the `entangler` argument (`CNOT`, `CPHASE`, `CZ`, `sqrtiSWAP`). -/
inductive EntKind : Type where
  | cnot | cphase | cz | sqrtiswap
deriving DecidableEq

/-- The two-qubit rotation classes that can be passed to `RR_block` as the
`rotator` argument (`R_xx`, `R_yy`, `R_zz`). -/
inductive RRKind : Type where
  | xx | yy | zz
deriving DecidableEq

/-- One constructor per concrete gate class of the source. -/
inductive GateKind : Type where
  | Rx | Ry | Rz
  | Hg | SqrtHg | FixedRy | Sg | Tg
  | CnotG | CphaseG | CzG | SqrtiSwapG
  | ChainG (e : EntKind) | AllToAllG (e : EntKind)
  | SharedG | RrBlockG (r : RRKind)
  | Rxx | Ryy | Rzz
deriving DecidableEq

/-- A gate object.  The fields unify the instance attributes of the Python
classes: `q1`/`q2` are `_q_on` resp. `_q1`/`_q2` (0 where the class does not
set them), `qN` is `_q_N`, `theta` is `_theta` (`none` where the class never
sets the attribute, e.g. `EntGate`), `pauli` is `_pauli` (`none` where the
attribute is never set, e.g. `H`), `isParam` is `_is_param`, `operation` is
`_operation`, `layer` is `_layer` (`[]` where the class has none). -/
inductive Gate (A Op : Type) : Type where
  | mk (kind : GateKind) (q1 q2 qN : ℕ) (theta : Option A) (pauli : Option Op)
       (isParam : Bool) (operation : Op) (layer : List (Gate A Op))

/-- The `kind` field of a gate. -/
def Gate.kind {A Op : Type} : Gate A Op → GateKind
  | .mk k _ _ _ _ _ _ _ _ => k

/-- The first (or only) qubit a gate acts on. -/
def Gate.q1 {A Op : Type} : Gate A Op → ℕ
  | .mk _ a _ _ _ _ _ _ _ => a

/-- The second qubit a two-qubit gate acts on. -/
def Gate.q2 {A Op : Type} : Gate A Op → ℕ
  | .mk _ _ b _ _ _ _ _ _ => b

/-- The total qubit count `_q_N`. -/
def Gate.qN {A Op : Type} : Gate A Op → ℕ
  | .mk _ _ _ n _ _ _ _ _ => n

/-- The stored angle `_theta`, when the attribute exists. -/
def Gate.theta {A Op : Type} : Gate A Op → Option A
  | .mk _ _ _ _ t _ _ _ _ => t

/-- The stored generator `_pauli`, when the attribute exists. -/
def Gate.pauli {A Op : Type} : Gate A Op → Option Op
  | .mk _ _ _ _ _ p _ _ _ => p

/-- The `_is_param` flag. -/
def Gate.isParam {A Op : Type} : Gate A Op → Bool
  | .mk _ _ _ _ _ _ b _ _ => b

/-- The stored operator `_operation`. -/
def Gate.operation {A Op : Type} : Gate A Op → Op
  | .mk _ _ _ _ _ _ _ o _ => o

/-- The stored sub-gate list `_layer` of a block. -/
def Gate.layer {A Op : Type} : Gate A Op → List (Gate A Op)
  | .mk _ _ _ _ _ _ _ _ l => l

/-- Modelled from the spec: `prod` from `helper_functions` (not in src/).
Per the spec a product of a gate list is "built by reversing the index list
before folding left-to-right through multiplication", so `prod` folds its
argument left-to-right through `*`; multiplying two gates (or an operator
and a gate) always uses the underlying `_operation` (class `Gate` in the
source), so the fold acts on the `operation` fields.  The source never
applies `prod` to an empty list on the paths the claims cover; `Q.one` is
used as the value of that unreached case. -/
def prodGates {A Op St : Type} (Q : Collab A Op St) : List (Gate A Op) → Op
  | [] => Q.one
  | g :: gs => gs.foldl (fun acc h => Q.mulOO acc h.operation) g.operation

/-- Operation built by `R_xx._set_op`: `rx(theta, N, q1) * rx(-theta, N, q2)`. -/
def rrxOp {A Op St : Type} (Q : Collab A Op St) (t : A) (a b n : ℕ) : Op :=
  Q.mulOO (Q.rx t n a) (Q.rx (Q.negA t) n b)

/-- Operation built by `R_yy._set_op`: `ry(theta, N, q1) * ry(-theta, N, q2)`. -/
def rryOp {A Op St : Type} (Q : Collab A Op St) (t : A) (a b n : ℕ) : Op :=
  Q.mulOO (Q.ry t n a) (Q.ry (Q.negA t) n b)

/-- Operation built by `R_zz._set_op`: the exponential of
`-1j * 0.5 * theta * fock1 * fock2` with `fock_i = genFockOp(sigmaz, q_i, N, 2)`. -/
def rrzOp {A Op St : Type} (Q : Collab A Op St) (t : A) (a b n : ℕ) : Op :=
  Q.expm (Q.scaleExpArg t (Q.mulOO (Q.genFock Q.sigmaz a n) (Q.genFock Q.sigmaz b n)))

/-- The `GateKind` of the rotator class `r`. -/
def RRKind.gateKind : RRKind → GateKind
  | .xx => .Rxx
  | .yy => .Ryy
  | .zz => .Rzz

/-- The default generator stored by `R_xx/R_yy/R_zz._set_op`. -/
def rrPauli {A Op St : Type} (Q : Collab A Op St) : RRKind → Op
  | .xx => Q.sigmax
  | .yy => Q.sigmay
  | .zz => Q.sigmaz

/-- The operation of a two-qubit rotator of class `r` at angle `t`. -/
def rrOp {A Op St : Type} (Q : Collab A Op St) (r : RRKind) (t : A) (a b n : ℕ) : Op :=
  match r with
  | .xx => rrxOp Q t a b n
  | .yy => rryOp Q t a b n
  | .zz => rrzOp Q t a b n

/-- `RR.__init__` for rotator class `r` on the qubit pair `p` in `n` qubits:
`_theta = 0`, `_is_param = True`, `_operation = _set_op()` (which also sets
`_pauli`). -/
def mkRR {A Op St : Type} (Q : Collab A Op St) (r : RRKind) (p : ℕ × ℕ) (n : ℕ) :
    Gate A Op :=
  .mk r.gateKind p.1 p.2 n (some Q.zeroA) (some (rrPauli Q r)) true
    (rrOp Q r Q.zeroA p.1 p.2 n) []

/-- The ring index pairs of `RR_block._set_op`: `(i, (i+1) % N)` for each `i`. -/
def rrIndices (n : ℕ) : List (ℕ × ℕ) :=
  (List.range n).map (fun i => (i, (i + 1) % n))

/-- The fresh rotator layer rebuilt by `RR_block._set_op`. -/
def rrLayer {A Op St : Type} (Q : Collab A Op St) (r : RRKind) (n : ℕ) :
    List (Gate A Op) :=
  (rrIndices n).map (fun p => mkRR Q r p n)

mutual

/-- Translation of the per-class `set_theta` methods.
For `R_x/R_y/R_z` (class `PRot`): store the angle and rebuild `_operation`
via `_set_op`, which also re-assigns `_pauli` to the class Pauli.
For `H`, `sqrtH`, `fixed_R_y`, `S`, `T`: `set_theta` is overridden to
`return None` (no mutation).  `EntGate` and its subclasses (`CNOT`,
`CPHASE`, `CZ`, `sqrtiSWAP`, `CHAIN`, `ALLTOALL`) define no `set_theta`,
so calling it raises `AttributeError`, modelled by `none`.
For `shared_parameter`: store the angle, propagate `set_theta` to every
sub-gate, then rebuild `_operation` as `prod(self._layer[::-1])`.
For `RR_block`: same inherited method, but `RR_block._set_op` re-assigns
`self._layer` to a list of freshly constructed rotators (each at angle 0)
before taking the product, discarding the propagated layer.
For `R_xx/R_yy/R_zz` (class `RR`): as `PRot`, with the two-qubit `_set_op`. -/
def set_theta {A Op St : Type} (Q : Collab A Op St) (t : A) :
    Gate A Op → Option (Gate A Op)
  | .mk k q1 q2 qN th pl ip op layer =>
    match k with
    | .Rx => some (.mk .Rx q1 q2 qN (some t) (some Q.sigmax) ip (Q.rx t qN q1) layer)
    | .Ry => some (.mk .Ry q1 q2 qN (some t) (some Q.sigmay) ip (Q.ry t qN q1) layer)
    | .Rz => some (.mk .Rz q1 q2 qN (some t) (some Q.sigmaz) ip (Q.rz t qN q1) layer)
    | .Hg => some (.mk .Hg q1 q2 qN th pl ip op layer)
    | .SqrtHg => some (.mk .SqrtHg q1 q2 qN th pl ip op layer)
    | .FixedRy => some (.mk .FixedRy q1 q2 qN th pl ip op layer)
    | .Sg => some (.mk .Sg q1 q2 qN th pl ip op layer)
    | .Tg => some (.mk .Tg q1 q2 qN th pl ip op layer)
    | .CnotG => none
    | .CphaseG => none
    | .CzG => none
    | .SqrtiSwapG => none
    | .ChainG _ => none
    | .AllToAllG _ => none
    | .SharedG =>
      match set_theta_list Q t layer with
      | some layer2 =>
        some (.mk .SharedG q1 q2 qN (some t) pl ip (prodGates Q layer2.reverse) layer2)
      | none => none
    | .RrBlockG r =>
      match set_theta_list Q t layer with
      | some _ =>
        some (.mk (.RrBlockG r) q1 q2 qN (some t) pl ip
          (prodGates Q (rrLayer Q r qN).reverse) (rrLayer Q r qN))
      | none => none
    | .Rxx => some (.mk .Rxx q1 q2 qN (some t) (some Q.sigmax) ip (rrxOp Q t q1 q2 qN) layer)
    | .Ryy => some (.mk .Ryy q1 q2 qN (some t) (some Q.sigmay) ip (rryOp Q t q1 q2 qN) layer)
    | .Rzz => some (.mk .Rzz q1 q2 qN (some t) (some Q.sigmaz) ip (rrzOp Q t q1 q2 qN) layer)

/-- The loop `for gate in self._layer: gate.set_theta(theta)` of
`shared_parameter.set_theta`; any `AttributeError` aborts the whole call. -/
def set_theta_list {A Op St : Type} (Q : Collab A Op St) (t : A) :
    List (Gate A Op) → Option (List (Gate A Op))
  | [] => some []
  | g :: gs =>
    match set_theta Q t g, set_theta_list Q t gs with
    | some g2, some gs2 => some (g2 :: gs2)
    | _, _ => none

end

/-- The accumulation `deriv = 0; for g in layer: deriv = deriv + g.derivative()`
of `shared_parameter.derivative`.  In the source the accumulator starts as the
Python integer `0`, and `0 + Qobj` equals that `Qobj` as a value, so the sum of
a non-empty list is the left fold of `+` from the first derivative; the empty
case returns the integer 0, modelled by `Q.zero`. -/
def pySum {A Op St : Type} (Q : Collab A Op St) : List Op → Op
  | [] => Q.zero
  | d :: ds => ds.foldl Q.addOO d

mutual

/-- Translation of the per-class `derivative` methods.
`PRot.derivative` (inherited by every single-qubit gate class) returns
`-1j * genFockOp(self._pauli, q_on, q_N, 2) / 2`; for `H`, `sqrtH`, `S`, `T`
the `_pauli` attribute was never set, so the call raises `AttributeError`
(`none` here).  `RR.derivative` returns `-1j * (fock1 * fock2) / 2`.
`shared_parameter.derivative` (inherited by `RR_block`) sums the sub-gate
derivatives.  `EntGate` and its subclasses define no `derivative`. -/
def derivative {A Op St : Type} (Q : Collab A Op St) : Gate A Op → Option Op
  | .mk k q1 q2 qN _ pl _ _ layer =>
    match k with
    | .Rx | .Ry | .Rz | .Hg | .SqrtHg | .FixedRy | .Sg | .Tg =>
      match pl with
      | some p => some (Q.scaleNegHalfI (Q.genFock p q1 qN))
      | none => none
    | .Rxx | .Ryy | .Rzz =>
      match pl with
      | some p => some (Q.scaleNegHalfI (Q.mulOO (Q.genFock p q1 qN) (Q.genFock p q2 qN)))
      | none => none
    | .SharedG | .RrBlockG _ =>
      match derivative_list Q layer with
      | some ds => some (pySum Q ds)
      | none => none
    | .CnotG | .CphaseG | .CzG | .SqrtiSwapG | .ChainG _ | .AllToAllG _ => none

/-- The loop of `shared_parameter.derivative` collecting each sub-gate's
derivative; any failure aborts the whole call. -/
def derivative_list {A Op St : Type} (Q : Collab A Op St) :
    List (Gate A Op) → Option (List Op)
  | [] => some []
  | g :: gs =>
    match derivative Q g, derivative_list Q gs with
    | some d, some ds => some (d :: ds)
    | _, _ => none

end

mutual

/-- Translation of the per-class `flip_pauli` methods.  `PRot.flip_pauli`
(inherited by every rotation gate class, including `RR`) re-assigns
`self._pauli = -1 * self._pauli`; when `_pauli` was never set (`H`, `sqrtH`,
`S`, `T`) the access raises `AttributeError`.  `shared_parameter.flip_pauli`
(inherited by `RR_block`) propagates to every sub-gate.  `EntGate` and its
subclasses define no `flip_pauli`. -/
def flip_pauli {A Op St : Type} (Q : Collab A Op St) : Gate A Op → Option (Gate A Op)
  | .mk k q1 q2 qN th pl ip op layer =>
    match k with
    | .SharedG =>
      match flip_pauli_list Q layer with
      | some layer2 => some (.mk .SharedG q1 q2 qN th pl ip op layer2)
      | none => none
    | .RrBlockG r =>
      match flip_pauli_list Q layer with
      | some layer2 => some (.mk (.RrBlockG r) q1 q2 qN th pl ip op layer2)
      | none => none
    | .CnotG | .CphaseG | .CzG | .SqrtiSwapG | .ChainG _ | .AllToAllG _ => none
    | _ =>
      match pl with
      | some p => some (.mk k q1 q2 qN th (some (Q.negOp p)) ip op layer)
      | none => none

/-- The loop of `shared_parameter.flip_pauli` over the sub-gates. -/
def flip_pauli_list {A Op St : Type} (Q : Collab A Op St) :
    List (Gate A Op) → Option (List (Gate A Op))
  | [] => some []
  | g :: gs =>
    match flip_pauli Q g, flip_pauli_list Q gs with
    | some g2, some gs2 => some (g2 :: gs2)
    | _, _ => none

end

/-- `R_x/R_y/R_z.__init__` (class `PRot`): `_theta = 0`, `_is_param = True`,
`_operation = _set_op()` which also stores the class Pauli. -/
def mkPRot {A Op St : Type} (Q : Collab A Op St) (k : GateKind) (q n : ℕ) : Gate A Op :=
  match k with
  | .Ry => .mk .Ry q 0 n (some Q.zeroA) (some Q.sigmay) true (Q.ry Q.zeroA n q) []
  | .Rz => .mk .Rz q 0 n (some Q.zeroA) (some Q.sigmaz) true (Q.rz Q.zeroA n q) []
  | _ => .mk .Rx q 0 n (some Q.zeroA) (some Q.sigmax) true (Q.rx Q.zeroA n q) []

/-- `H.__init__`: `_theta = pi/2`, `_is_param = False`,
`_operation = x_gate(N, q) * ry(pi/2, N, q)`; `_pauli` is never set. -/
def mkH {A Op St : Type} (Q : Collab A Op St) (q n : ℕ) : Gate A Op :=
  .mk .Hg q 0 n (some Q.piOver2) none false
    (Q.mulOO (Q.x_gate n q) (Q.ry Q.piOver2 n q)) []

/-- `sqrtH`: as `H` but `_operation = np.sqrt(x_gate(N, q) * ry(pi/2, N, q))`. -/
def mkSqrtH {A Op St : Type} (Q : Collab A Op St) (q n : ℕ) : Gate A Op :=
  .mk .SqrtHg q 0 n (some Q.piOver2) none false
    (Q.sqrtm (Q.mulOO (Q.x_gate n q) (Q.ry Q.piOver2 n q))) []

/-- `fixed_R_y.__init__`: a fixed-angle `R_y`, `_is_param = False`;
`_set_op` is `R_y`'s, so `_pauli = sigmay`. -/
def mkFixedRy {A Op St : Type} (Q : Collab A Op St) (q n : ℕ) (t : A) : Gate A Op :=
  .mk .FixedRy q 0 n (some t) (some Q.sigmay) false (Q.ry t n q) []

/-- `S`: inherits `H.__init__`; `S._set_op` re-assigns `_theta = pi/2` and
returns `phasegate(pi/2, N, q)`; `_pauli` is never set. -/
def mkS {A Op St : Type} (Q : Collab A Op St) (q n : ℕ) : Gate A Op :=
  .mk .Sg q 0 n (some Q.piOver2) none false (Q.phasegate Q.piOver2 n q) []

/-- `T`: inherits `H.__init__`; `T._set_op` returns `t_gate(N, q)`. -/
def mkT {A Op St : Type} (Q : Collab A Op St) (q n : ℕ) : Gate A Op :=
  .mk .Tg q 0 n (some Q.piOver2) none false (Q.t_gate n q) []

/-- The `GateKind` of the entangler class `e`. -/
def EntKind.gateKind : EntKind → GateKind
  | .cnot => .CnotG
  | .cphase => .CphaseG
  | .cz => .CzG
  | .sqrtiswap => .SqrtiSwapG

/-- The qutip operator built by each entangling class's `_set_op`.  `CPHASE`
uses `cz_gate` (a CZ, as the source comment notes), `CZ` likewise. -/
def entOp {A Op St : Type} (Q : Collab A Op St) (e : EntKind) (a b n : ℕ) : Op :=
  match e with
  | .cnot => Q.cnot n a b
  | .cphase => Q.cz_gate n a b
  | .cz => Q.cz_gate n a b
  | .sqrtiswap => Q.sqrtiswap n a b

/-- `EntGate.__init__` for entangler class `e` on pair `p`: `_q1, _q2 = qs_on`,
`_is_param = False`, `_operation = _set_op()`; `_theta` is never set. -/
def mkEnt {A Op St : Type} (Q : Collab A Op St) (e : EntKind) (p : ℕ × ℕ) (n : ℕ) :
    Gate A Op :=
  .mk e.gateKind p.1 p.2 n none none false (entOp Q e p.1 p.2 n) []

/-- The index pairs of `CHAIN._set_op`: `[2j, 2j+1]` for `j in range(N//2)`
("top connections") followed by `[2j+1, 2j+2]` for `j in range((N-1)//2)`
("bottom connections"). -/
def chainIndices (n : ℕ) : List (ℕ × ℕ) :=
  ((List.range (n / 2)).map (fun j => (2 * j, 2 * j + 1))) ++
    ((List.range ((n - 1) / 2)).map (fun j => (2 * j + 1, 2 * j + 2)))

/-- `CHAIN._set_op`: instantiate the entangler on every index pair and take
`prod` of the reversed gate list. -/
def CHAIN_set_op {A Op St : Type} (Q : Collab A Op St) (e : EntKind) (n : ℕ) : Op :=
  prodGates Q (((chainIndices n).map (fun p => mkEnt Q e p n)).reverse)

/-- `CHAIN.__init__`: stores the entangler class, `_q_N`, `_is_param = False`
and the operation; `_q1`/`_q2`/`_theta`/`_pauli`/`_layer` are never set. -/
def mkCHAIN {A Op St : Type} (Q : Collab A Op St) (e : EntKind) (n : ℕ) : Gate A Op :=
  .mk (.ChainG e) 0 0 n none none false (CHAIN_set_op Q e n) []

/-- The unordered qubit pairs enumerated by the loops of `ALLTOALL._set_op`:
`(i, j)` for `i in range(N-1)`, `j in range(i+1, N)`. -/
def alltoallPairs (n : ℕ) : List (ℕ × ℕ) :=
  (List.range (n - 1)).flatMap (fun i => (List.range' (i + 1) (n - 1 - i)).map (fun j => (i, j)))

/-- `ALLTOALL._set_op`.  The loop body evaluates `rng.perumtation([i, j])` —
a misspelling of `rng.permutation` — and a numpy `Generator` has no attribute
`perumtation`, so the first iteration raises `AttributeError`; the method can
only complete when the loops run zero times (fewer than 2 qubits), in which
case it takes `prod` of an empty gate list. -/
def ALLTOALL_set_op {A Op St : Type} (Q : Collab A Op St) (_e : EntKind) (n : ℕ) :
    Option Op :=
  if alltoallPairs n = [] then some (prodGates Q ([] : List (Gate A Op))) else none

/-- `ALLTOALL.__init__`: stores the entangler class, `_q_N`, `_is_param =
False`, then `_operation = _set_op()`, which raises for every `N >= 2`. -/
def mkALLTOALL {A Op St : Type} (Q : Collab A Op St) (e : EntKind) (n : ℕ) :
    Option (Gate A Op) :=
  match ALLTOALL_set_op Q e n with
  | some op => some (.mk (.AllToAllG e) 0 0 n none none false op [])
  | none => none

/-- `shared_parameter.__init__`: wraps an existing gate list, `_theta = 0`,
`_is_param = True`, `_operation = prod(self._layer[::-1])`; no `_pauli`. -/
def mkShared {A Op St : Type} (Q : Collab A Op St) (layer : List (Gate A Op)) (n : ℕ) :
    Gate A Op :=
  .mk .SharedG 0 0 n (some Q.zeroA) none true (prodGates Q layer.reverse) layer

/-- `RR_block.__init__`: stores the rotator class, `_theta = 0`, `_q_N`,
`_is_param = True`, then `_operation = _set_op()`, which builds the ring
layer of rotators (each freshly constructed at angle 0) and takes `prod`
of its reverse; no `_pauli`. -/
def mkRRblock {A Op St : Type} (Q : Collab A Op St) (r : RRKind) (n : ℕ) : Gate A Op :=
  .mk (.RrBlockG r) 0 0 n (some Q.zeroA) none true
    (prodGates Q (rrLayer Q r n).reverse) (rrLayer Q r n)

/-- The cost-function selector values `set_cost_fn` recognises. -/
inductive CostKind : Type where
  | energy | fidelity
deriving DecidableEq

/-- The circuit object `PQC`.  `hField` is the `self.H` attribute (only set
when `n_qubits >= 2`, `none` models the missing attribute), `cost` is the
`self.cost` attribute (`none` models it never having been assigned),
`parameterised` is `self._parameterised` (-1 for a non-parameterised
position, else the 0-based logical parameter index). -/
structure PQC (A Op St : Type) where
  nQubits : ℕ
  nLayers : ℕ
  layers : List (List (Gate A Op))
  gates : List (Gate A Op)
  parameterised : List ℤ
  hField : Option Op
  initialState : St
  costName : String
  cost : Option CostKind
  psiRef : Option St
  quantumState : St

/-- `PQC.set_cost_fn`: recognises `"energy"` and `"fidelity"` (the latter
also storing the reference state); any other name assigns nothing. -/
def set_cost_fn {A Op St : Type} (P : PQC A Op St) (cost : String) (psi_ref : Option St) :
    PQC A Op St :=
  if cost = "energy" then { P with cost := some CostKind.energy }
  else if cost = "fidelity" then { P with cost := some CostKind.fidelity, psiRef := psi_ref }
  else P

/-- `PQC.__init__`: `self.H = Z0 * Z1` (with `Z_i = genFockOp(sigmaz, i, N, 2)`)
only when `n_qubits >= 2`; `initial_state = tensor([basis(2,0)] * N)`;
`set_cost_fn(cost)`; `_quantum_state = initial_state`. -/
def mkPQC {A Op St : Type} (Q : Collab A Op St) (n : ℕ) (cost : String) : PQC A Op St :=
  set_cost_fn
    { nQubits := n
      nLayers := 0
      layers := []
      gates := []
      parameterised := []
      hField :=
        if 2 ≤ n then
          some (Q.mulOO (Q.genFock Q.sigmaz 0 n) (Q.genFock Q.sigmaz 1 n))
        else none
      initialState := Q.initState n
      costName := cost
      cost := none
      psiRef := none
      quantumState := Q.initState n } cost none

/-- The second loop of `PQC.set_gates`: walk the flattened gate list with a
running `param_count`, recording `param_count` (then incrementing) for a
parameterised gate and `-1` otherwise. -/
def mkParameterised {A Op : Type} : List (Gate A Op) → ℤ → List ℤ
  | [], _ => []
  | g :: gs, c =>
    if g.isParam then c :: mkParameterised gs (c + 1) else (-1) :: mkParameterised gs c

/-- `PQC.set_gates`: flatten `self._layers` by concatenation into `self.gates`
and rebuild `self._parameterised`. -/
def set_gates {A Op St : Type} (P : PQC A Op St) : PQC A Op St :=
  let flat := P.layers.foldl (fun acc l => acc ++ l) []
  { P with gates := flat, parameterised := mkParameterised flat 0 }

/-- `PQC.add_layer`: append `n` (deep) copies of the layer, bump the layer
count, and rerun `set_gates`.  Deep copying is the identity on values. -/
def add_layer {A Op St : Type} (P : PQC A Op St) (layer : List (Gate A Op)) (n : ℕ) :
    PQC A Op St :=
  set_gates { P with layers := P.layers ++ List.replicate n layer, nLayers := P.nLayers + n }

/-- `PQC.get_params`: `[g._theta for g in self.gates if g._is_param]`.
Every parameterised gate class stores `_theta`, so the attribute access
succeeds; `filterMap` reads the stored angle. -/
def getParamsList {A Op : Type} (gs : List (Gate A Op)) : List A :=
  (gs.filter (fun g => g.isParam)).filterMap (fun g => g.theta)

/-- `PQC.get_params` on the circuit. -/
def get_params {A Op St : Type} (P : PQC A Op St) : List A :=
  getParamsList P.gates

/-- The number of parameterised gates in a gate list. -/
def paramCount {A Op : Type} (gs : List (Gate A Op)) : ℕ :=
  (gs.filter (fun g => g.isParam)).length

/-- The loop of `PQC.set_params`: enumerate the parameterised gates with
`count`; when `angles != []` read `angles[count]` (an `IndexError`, i.e.
`none`, when `count` is out of range), otherwise draw
`rng.random(1)[0] * 2 * pi` from the process-wide generator, modelled as the
`count`-th element of an abstract draw stream `rng`; then `p.set_theta(angle)`.
Non-parameterised gates are untouched. -/
def setParamsGates {A Op St : Type} (Q : Collab A Op St) (angles : List A) (rng : ℕ → A) :
    List (Gate A Op) → ℕ → Option (List (Gate A Op))
  | [], _ => some []
  | g :: gs, count =>
    if g.isParam then
      match (if angles.isEmpty then some (rng count) else angles.get? count) with
      | none => none
      | some angle =>
        match set_theta Q angle g, setParamsGates Q angles rng gs (count + 1) with
        | some g2, some gs2 => some (g2 :: gs2)
        | _, _ => none
    else
      match setParamsGates Q angles rng gs count with
      | some gs2 => some (g :: gs2)
      | none => none

/-- `PQC.set_params` on the circuit: mutate the gates in place. -/
def set_params {A Op St : Type} (Q : Collab A Op St) (P : PQC A Op St) (angles : List A)
    (rng : ℕ → A) : Option (PQC A Op St) :=
  match setParamsGates Q angles rng P.gates 0 with
  | some gs2 => some { P with gates := gs2 }
  | none => none

/-- `PQC.run`: `circuit_state = self.initial_state`; `set_params(angles)`;
then `for g in self.gates: circuit_state = g * circuit_state` (each step
multiplies the gate's `_operation` onto the state) and return the state. -/
def run {A Op St : Type} (Q : Collab A Op St) (P : PQC A Op St) (angles : List A)
    (rng : ℕ → A) : Option St :=
  match setParamsGates Q angles rng P.gates 0 with
  | some gs2 => some (gs2.foldl (fun st g => Q.applyOS g.operation st) P.initialState)
  | none => none

/-- `PQC._energy`: `qt.expect(self.H, psi_or_cached)`.  When `n_qubits < 2`
the attribute `self.H` was never assigned, so the access raises
`AttributeError`, modelled by `none`. -/
def energy {A Op St : Type} (Q : Collab A Op St) (P : PQC A Op St) (psi : Option St) :
    Option A :=
  match P.hField with
  | some hop =>
    some (match psi with
      | none => Q.expectV hop P.quantumState
      | some s => Q.expectV hop s)
  | none => none

/-- The loop of `PQC.flip_deriv`: `flip_pauli()` on every parameterised gate,
the others untouched. -/
def flipGates {A Op St : Type} (Q : Collab A Op St) :
    List (Gate A Op) → Option (List (Gate A Op))
  | [] => some []
  | g :: gs =>
    match (if g.isParam then flip_pauli Q g else some g), flipGates Q gs with
    | some g2, some gs2 => some (g2 :: gs2)
    | _, _ => none

/-- `PQC.flip_deriv` on the circuit. -/
def flip_deriv {A Op St : Type} (Q : Collab A Op St) (P : PQC A Op St) :
    Option (PQC A Op St) :=
  match flipGates Q P.gates with
  | some gs2 => some { P with gates := gs2 }
  | none => none

/-- Python `list.index(v)`: the first position holding `v`; `ValueError`
(here `none`) when `v` does not occur. -/
def pyIndex (v : ℤ) : List ℤ → Option ℕ
  | [] => none
  | x :: xs => if x = v then some 0 else (pyIndex v xs).map (fun i => i + 1)

/-- An entry of the gate sequence during `take_derivative`: the substituted
position holds a raw operator (`deriv * gate` unwraps the gate via
`Gate.__rmul__`), every other position still holds a gate object. -/
def entryOp {A Op : Type} : (Gate A Op ⊕ Op) → Op
  | .inl g => g.operation
  | .inr o => o

/-- Folding a mixed gate/operator sequence onto a state in forward list
order, exactly as the loops of `PQC.run` and `PQC.take_derivative` do. -/
def foldEntries {A Op St : Type} (Q : Collab A Op St) (entries : List (Gate A Op ⊕ Op))
    (s : St) : St :=
  entries.foldl (fun st e => Q.applyOS (entryOp e) st) s

/-- `PQC.take_derivative(g_on)`: `p_loc = self._parameterised.index(g_on)`;
shallow-copy the gate at `p_loc` (the copy equals the original as a value);
`deriv = gate.derivative()`; put the raw operator `deriv * gate` at `p_loc`;
fold the (temporarily modified) sequence onto the initial state; put the
copied gate back at `p_loc`; return the state.  The returned pair is the
state together with the gate list as it stands after the restoring store. -/
def take_derivative {A Op St : Type} (Q : Collab A Op St) (P : PQC A Op St) (g_on : ℤ) :
    Option (St × List (Gate A Op)) :=
  match pyIndex g_on P.parameterised with
  | none => none
  | some pLoc =>
    match P.gates.get? pLoc with
    | none => none
    | some gate =>
      match derivative Q gate with
      | none => none
      | some d =>
        let entries := (P.gates.map Sum.inl).set pLoc (Sum.inr (Q.mulOO d gate.operation))
        some (foldEntries Q entries P.initialState, P.gates.set pLoc gate)

/-- `PQC.get_gradients`: `take_derivative(i)` for every logical parameter
index `i` in order (`n_params` counts the entries of `_parameterised`
greater than -1); only the states are collected. -/
def get_gradients {A Op St : Type} (Q : Collab A Op St) (P : PQC A Op St) :
    Option (List St) :=
  (List.range (P.parameterised.filter (fun i => -1 < i)).length).mapM
    (fun i => (take_derivative Q P (i : ℤ)).map Prod.fst)

mutual

/-- Whether a gate (recursively) responds to `set_theta` without an
`AttributeError`: false for the entangling classes, which define no
`set_theta`; for the block classes every sub-gate must respond. -/
def hasThetaDeep {A Op : Type} : Gate A Op → Bool
  | .mk k _ _ _ _ _ _ _ layer =>
    match k with
    | .CnotG | .CphaseG | .CzG | .SqrtiSwapG | .ChainG _ | .AllToAllG _ => false
    | .SharedG | .RrBlockG _ => hasThetaDeepList layer
    | _ => true

/-- `hasThetaDeep` for every gate of a list. -/
def hasThetaDeepList {A Op : Type} : List (Gate A Op) → Bool
  | [] => true
  | g :: gs => hasThetaDeep g && hasThetaDeepList gs

end

mutual

/-- Whether a gate is a rotation gate or a block built (recursively) of
rotation gates — the gates `set_theta` both succeeds on and stores the new
angle into. -/
def rotLike {A Op : Type} : Gate A Op → Bool
  | .mk k _ _ _ _ _ _ _ layer =>
    match k with
    | .Rx | .Ry | .Rz | .Rxx | .Ryy | .Rzz => true
    | .SharedG | .RrBlockG _ => rotLikeList layer
    | _ => false

/-- `rotLike` for every gate of a list. -/
def rotLikeList {A Op : Type} : List (Gate A Op) → Bool
  | [] => true
  | g :: gs => rotLike g && rotLikeList gs

end

/-- Whether the gate's class defines `set_theta` at all (only the top-level
class is examined). -/
def hasThetaMethod {A Op : Type} (g : Gate A Op) : Bool :=
  match g.kind with
  | .CnotG | .CphaseG | .CzG | .SqrtiSwapG | .ChainG _ | .AllToAllG _ => false
  | _ => true

/-- Whether the gate's `set_theta` stores the passed angle (true for the
rotation and block classes; the fixed single-qubit classes no-op). -/
def isResponsive {A Op : Type} (g : Gate A Op) : Bool :=
  match g.kind with
  | .Rx | .Ry | .Rz | .Rxx | .Ryy | .Rzz | .SharedG | .RrBlockG _ => true
  | _ => false

mutual

/-- The states a gate object can be in after construction and any number of
`set_theta` calls: the stored `_operation` (and `_pauli`) agree with the
stored `_theta` exactly as `_set_op` builds them, entangling gates are not
parameterised, every sub-gate of a `shared_parameter` responds to
`set_theta`, is itself well formed, and (when its class stores angles)
carries the block's shared angle; an `RR_block`'s layer is the freshly
rebuilt ring layer.  This is the `set_theta`-rebuilds-`operation`
synchronisation invariant of the spec together with the structural facts
the constructors establish. -/
def wfG {A Op St : Type} (Q : Collab A Op St) : Gate A Op → Prop
  | .mk k q1 q2 qN th pl ip op layer =>
    match k with
    | .Rx =>
      pl = some Q.sigmax ∧ (match th with | some t => op = Q.rx t qN q1 | none => False)
    | .Ry =>
      pl = some Q.sigmay ∧ (match th with | some t => op = Q.ry t qN q1 | none => False)
    | .Rz =>
      pl = some Q.sigmaz ∧ (match th with | some t => op = Q.rz t qN q1 | none => False)
    | .Hg | .SqrtHg | .FixedRy | .Sg | .Tg => th.isSome = true
    | .CnotG | .CphaseG | .CzG | .SqrtiSwapG | .ChainG _ | .AllToAllG _ =>
      ip = false
    | .Rxx =>
      pl = some Q.sigmax ∧ (match th with | some t => op = rrxOp Q t q1 q2 qN | none => False)
    | .Ryy =>
      pl = some Q.sigmay ∧ (match th with | some t => op = rryOp Q t q1 q2 qN | none => False)
    | .Rzz =>
      pl = some Q.sigmaz ∧ (match th with | some t => op = rrzOp Q t q1 q2 qN | none => False)
    | .SharedG =>
      match th with
      | some t => op = prodGates Q layer.reverse ∧ wfSubs Q t layer
      | none => False
    | .RrBlockG r =>
      th.isSome = true ∧ layer = rrLayer Q r qN ∧ op = prodGates Q layer.reverse

/-- Well-formedness of the sub-gates of a `shared_parameter` with shared
angle `t`. -/
def wfSubs {A Op St : Type} (Q : Collab A Op St) (t : A) : List (Gate A Op) → Prop
  | [] => True
  | g :: gs =>
    (hasThetaMethod g = true ∧ wfG Q g ∧ (isResponsive g = true → g.theta = some t)) ∧
      wfSubs Q t gs

end

/-- A free (syntactic) operator algebra: one constructor per collaborator
field.  Distinct qutip operators are represented by distinct terms, so
disequalities such as "the ring product at angle 0 differs from the ring
product at angle 1" are decidable.  Angles are rationals in this instance. -/
inductive SynOp : Type where
  | one | zero | sigmax | sigmay | sigmaz
  | rx (t : ℚ) (n q : ℕ) | ry (t : ℚ) (n q : ℕ) | rz (t : ℚ) (n q : ℕ)
  | xg (n q : ℕ) | phase (t : ℚ) (n q : ℕ) | tg (n q : ℕ)
  | cnot (n a b : ℕ) | czg (n a b : ℕ) | siswap (n a b : ℕ)
  | sqrtm (a : SynOp) | expm (a : SynOp) | genFock (p : SynOp) (q n : ℕ)
  | negOp (a : SynOp) | scaleNegHalfI (a : SynOp) | scaleExpArg (t : ℚ) (a : SynOp)
  | mul (a b : SynOp) | add (a b : SynOp)
deriving DecidableEq

/-- Free states for the syntactic instance: an initial basis state per qubit
count, and formal application of an operator. -/
inductive SynSt : Type where
  | init (n : ℕ) | app (o : SynOp) (s : SynSt)
deriving DecidableEq

/-- The syntactic collaborator instance used for concrete evaluations; the
angle constants (`piOver2` in particular) are opaque stand-ins whose exact
rational values no claim depends on. -/
def Qsyn : Collab ℚ SynOp SynSt :=
  { mulOO := .mul
    addOO := .add
    applyOS := .app
    one := .one
    zero := .zero
    sigmax := .sigmax
    sigmay := .sigmay
    sigmaz := .sigmaz
    rx := .rx
    ry := .ry
    rz := .rz
    x_gate := .xg
    phasegate := .phase
    t_gate := .tg
    cnot := .cnot
    cz_gate := .czg
    sqrtiswap := .siswap
    sqrtm := .sqrtm
    expm := .expm
    genFock := .genFock
    negOp := .negOp
    scaleNegHalfI := .scaleNegHalfI
    scaleExpArg := .scaleExpArg
    expectV := fun _ _ => 0
    initState := .init
    zeroA := 0
    piOver2 := 2
    negA := fun t => -t }

/-- Spec-side fold of `run`, written exactly as the spec describes it:
`state = gate[0] * state`, then `state = gate[1] * (previous)`, and so on,
so `gates[0]` is applied first and the last gate is applied last. -/
def specForwardFold {A Op St : Type} (Q : Collab A Op St) :
    List (Gate A Op) → St → St
  | [], s => s
  | g :: gs, s => specForwardFold Q gs (Q.applyOS g.operation s)

/-- Spec-side product of a list of operators, "folding left-to-right through
multiplication" (empty case unreached on the claims' paths). -/
def specFoldMul {A Op St : Type} (Q : Collab A Op St) : List Op → Op
  | [] => Q.one
  | o :: os => os.foldl Q.mulOO o

/-- Spec-side pair list of the CHAIN claim: `[2j, 2j+1]` for `j` in
`0..N//2` followed by `[2j+1, 2j+2]` for `j` in `0..(N-1)//2`. -/
def specChainPairs (n : ℕ) : List (ℕ × ℕ) :=
  ((List.range (n / 2)).map (fun j => (2 * j, 2 * j + 1))) ++
    ((List.range ((n - 1) / 2)).map (fun j => (2 * j + 1, 2 * j + 2)))

/-- Spec-side CHAIN operation: instantiate the entangler on each pair,
reverse the list, fold left-to-right through multiplication. -/
def specChainOp {A Op St : Type} (Q : Collab A Op St) (e : EntKind) (n : ℕ) : Op :=
  specFoldMul Q (((specChainPairs n).map (fun p => (mkEnt Q e p n).operation)).reverse)

/-- The ring layer the RR_block claim expects after `set_theta(t)`: the ring
rotators (pairs `(i, (i+1) mod N)`) each set to angle `t`. -/
def specRingLayer {A Op St : Type} (Q : Collab A Op St) (r : RRKind) (n : ℕ) (t : A) :
    List (Gate A Op) :=
  (rrIndices n).map (fun p =>
    .mk r.gateKind p.1 p.2 n (some t) (some (rrPauli Q r)) true (rrOp Q r t p.1 p.2 n) [])

/-- Spec-side sum of a list of operator derivatives ("the block's derivative
equals the sum of the k sub-gates' derivatives"): the sum of a non-empty
list associated left-to-right; an empty sum is the scalar zero. -/
def specSumDerivs {A Op St : Type} (Q : Collab A Op St) : List Op → Op
  | [] => Q.zero
  | d :: ds => ds.foldl Q.addOO d

mutual

/-- Whether `flip_pauli` succeeds on a gate: the stored `_pauli` must exist
(for blocks, recursively on every sub-gate); entangling classes define no
`flip_pauli`. -/
def flipReady {A Op : Type} : Gate A Op → Bool
  | .mk k _ _ _ _ pl _ _ layer =>
    match k with
    | .SharedG | .RrBlockG _ => flipReadyList layer
    | .CnotG | .CphaseG | .CzG | .SqrtiSwapG | .ChainG _ | .AllToAllG _ => false
    | _ => pl.isSome

/-- `flipReady` for every gate of a list. -/
def flipReadyList {A Op : Type} : List (Gate A Op) → Bool
  | [] => true
  | g :: gs => flipReady g && flipReadyList gs

end

mutual

/-- The relation between a gate and its `flip_pauli` result: only the stored
generator changes, to its negation (recursively through block layers); the
operation, angle, qubits and parameter flag are untouched. -/
def negPauliRel {A Op St : Type} (Q : Collab A Op St) : Gate A Op → Gate A Op → Prop
  | .mk k q1 q2 qN th pl ip op layer, g2 =>
    match k with
    | .SharedG | .RrBlockG _ =>
      ∃ layer2, g2 = .mk k q1 q2 qN th pl ip op layer2 ∧ negPauliRelList Q layer layer2
    | _ => ∃ p, pl = some p ∧ g2 = .mk k q1 q2 qN th (some (Q.negOp p)) ip op layer

/-- Pointwise `negPauliRel` on layers. -/
def negPauliRelList {A Op St : Type} (Q : Collab A Op St) :
    List (Gate A Op) → List (Gate A Op) → Prop
  | [], l2 => l2 = []
  | g :: gs, l2 =>
    ∃ g2 gs2, l2 = g2 :: gs2 ∧ negPauliRel Q g g2 ∧ negPauliRelList Q gs gs2

end

/-- A fixed draw stream for the process-wide random generator in concrete
examples (its values are never reached in the witnesses). -/
def rngW : ℕ → ℚ := fun _ => 0

/-- A concrete two-qubit circuit used by witnesses: one layer holding a
parameterised `R_x` on qubit 0 and a `CNOT` on the pair (0, 1). -/
def Pw : PQC ℚ SynOp SynSt :=
  add_layer (mkPQC Qsyn 2 "energy") [mkPRot Qsyn GateKind.Rx 0 2, mkEnt Qsyn EntKind.cnot (0, 1) 2] 1

theorem prodGates_eq_specFoldMul {A Op St : Type} (Q : Collab A Op St) :
    ∀ l : List (Gate A Op), prodGates Q l = specFoldMul Q (l.map Gate.operation)
  | [] => rfl
  | g :: gs => by
    simp [prodGates, specFoldMul, List.foldl_map]

theorem chainIndices_eq_specChainPairs (n : ℕ) : chainIndices n = specChainPairs n := rfl

/-- C5: for every entangler class and every `N >= 2`, `CHAIN(entangler, N)`
builds the pair list `[2j, 2j+1]` for `j in 0..N//2` followed by
`[2j+1, 2j+2]` for `j in 0..(N-1)//2`, instantiates the entangler on each
pair, and its operation is the product obtained by reversing that list and
folding left-to-right through multiplication. -/
theorem claim_C5_chain_composition {A Op St : Type} (Q : Collab A Op St) (e : EntKind)
    (n : ℕ) (hn : 2 ≤ n) :
    chainIndices n = specChainPairs n ∧
      (mkCHAIN Q e n).operation = specChainOp Q e n := by
  refine ⟨rfl, ?_⟩
  show CHAIN_set_op Q e n = specChainOp Q e n
  rw [CHAIN_set_op, specChainOp, prodGates_eq_specFoldMul, chainIndices_eq_specChainPairs]
  simp only [List.map_reverse, List.map_map]
  rfl

/-- Witness for C5 at the concrete input `N = 3`, `entangler = CNOT`. -/
theorem claim_C5_chain_composition_witness :
    2 ≤ 3 ∧
      (chainIndices 3 = specChainPairs 3 ∧
        (mkCHAIN Qsyn EntKind.cnot 3).operation = specChainOp Qsyn EntKind.cnot 3) :=
  ⟨by decide, claim_C5_chain_composition Qsyn EntKind.cnot 3 (by decide)⟩

theorem alltoallPairs_ne_nil (n : ℕ) (hn : 2 ≤ n) : alltoallPairs n ≠ [] := by
  apply List.ne_nil_of_mem (a := ((0, 1) : ℕ × ℕ))
  rw [alltoallPairs]
  rw [List.mem_flatMap]
  refine ⟨0, ?_, ?_⟩
  · rw [List.mem_range]; omega
  · rw [List.mem_map]
    refine ⟨1, ?_, rfl⟩
    rw [List.mem_range'_1]
    omega

/-- C6: the claim says constructing `ALLTOALL(entangler, N)` succeeds for
every `N >= 2`; in the source the loop body evaluates `rng.perumtation`, a
misspelling of `rng.permutation`, so the first of the (at least one) pair
iterations raises `AttributeError` and construction always fails. -/
theorem claim_C6_alltoall_constructor_fails {A Op St : Type} (Q : Collab A Op St)
    (e : EntKind) (n : ℕ) (hn : 2 ≤ n) : mkALLTOALL Q e n = none := by
  rw [mkALLTOALL, ALLTOALL_set_op, if_neg (alltoallPairs_ne_nil n hn)]

/-- Witness for C6 at the concrete input `N = 2`. -/
theorem claim_C6_alltoall_constructor_fails_witness :
    2 ≤ 2 ∧ mkALLTOALL Qsyn EntKind.cnot 2 = none :=
  ⟨by decide, claim_C6_alltoall_constructor_fails Qsyn EntKind.cnot 2 (by decide)⟩

/-- C9: for every `n_qubits < 2` with the default cost `"energy"`,
construction succeeds (`mkPQC` is total) but the ZZ observable `self.H` is
never assigned, so `_energy` fails with an attribute error (modelled `none`)
whether called on the cached state or on a supplied state. -/
theorem claim_C9_energy_missing_observable {A Op St : Type} (Q : Collab A Op St)
    (n : ℕ) (hn : n < 2) (psi : St) :
    (mkPQC Q n "energy").cost = some CostKind.energy ∧
      (mkPQC Q n "energy").hField = none ∧
      energy Q (mkPQC Q n "energy") none = none ∧
      energy Q (mkPQC Q n "energy") (some psi) = none := by
  have h2 : ¬ (2 ≤ n) := by omega
  refine ⟨?_, ?_, ?_, ?_⟩ <;>
    simp [mkPQC, set_cost_fn, energy, if_neg h2]

/-- Witness for C9 at the concrete input `n_qubits = 1`. -/
theorem claim_C9_energy_missing_observable_witness :
    1 < 2 ∧
      ((mkPQC Qsyn 1 "energy").cost = some CostKind.energy ∧
        (mkPQC Qsyn 1 "energy").hField = none ∧
        energy Qsyn (mkPQC Qsyn 1 "energy") none = none ∧
        energy Qsyn (mkPQC Qsyn 1 "energy") (some (SynSt.init 1)) = none) :=
  ⟨by decide, claim_C9_energy_missing_observable Qsyn 1 (by decide) (SynSt.init 1)⟩

/-- Counterexample to C7: the claim says `set_theta` on an entangling gate
is a safe no-op that does not fail, but `EntGate` defines no `set_theta`, so
on the concrete gate `CNOT([0, 1], 2)` the call raises `AttributeError`
(modelled as `none`). -/
theorem claim_C7_counterexample :
    set_theta Qsyn 1 (mkEnt Qsyn EntKind.cnot (0, 1) 2) = none := rfl

/-- C7 (amended): `set_theta` is a safe no-op on every fixed single-qubit
gate object (`H`, `sqrtH`, `fixed_R_y`, `S`, `T`) — it succeeds and leaves
the gate, in particular its operation, unchanged — while on the entangling
gate objects (`CNOT`, `CPHASE`, `CZ`, `sqrtiSWAP`), which define no
`set_theta`, the call raises `AttributeError` instead of no-opping. -/
theorem claim_C7_fixed_gate_set_theta {A Op St : Type} (Q : Collab A Op St) (t : A)
    (q1 q2 qN : ℕ) (th : Option A) (pl : Option Op) (ip : Bool) (op : Op)
    (layer : List (Gate A Op)) :
    (set_theta Q t (.mk .Hg q1 q2 qN th pl ip op layer) =
        some (.mk .Hg q1 q2 qN th pl ip op layer)) ∧
      (set_theta Q t (.mk .SqrtHg q1 q2 qN th pl ip op layer) =
        some (.mk .SqrtHg q1 q2 qN th pl ip op layer)) ∧
      (set_theta Q t (.mk .FixedRy q1 q2 qN th pl ip op layer) =
        some (.mk .FixedRy q1 q2 qN th pl ip op layer)) ∧
      (set_theta Q t (.mk .Sg q1 q2 qN th pl ip op layer) =
        some (.mk .Sg q1 q2 qN th pl ip op layer)) ∧
      (set_theta Q t (.mk .Tg q1 q2 qN th pl ip op layer) =
        some (.mk .Tg q1 q2 qN th pl ip op layer)) ∧
      (set_theta Q t (.mk .CnotG q1 q2 qN th pl ip op layer) = none) ∧
      (set_theta Q t (.mk .CphaseG q1 q2 qN th pl ip op layer) = none) ∧
      (set_theta Q t (.mk .CzG q1 q2 qN th pl ip op layer) = none) ∧
      (set_theta Q t (.mk .SqrtiSwapG q1 q2 qN th pl ip op layer) = none) :=
  ⟨rfl, rfl, rfl, rfl, rfl, rfl, rfl, rfl, rfl⟩

theorem set_theta_mkRR {A Op St : Type} (Q : Collab A Op St) (r : RRKind) (t : A)
    (p : ℕ × ℕ) (n : ℕ) :
    set_theta Q t (mkRR Q r p n) =
      some (.mk r.gateKind p.1 p.2 n (some t) (some (rrPauli Q r)) true
        (rrOp Q r t p.1 p.2 n) []) := by
  cases r <;> rfl

theorem set_theta_list_map_mkRR {A Op St : Type} (Q : Collab A Op St) (r : RRKind)
    (t : A) (n : ℕ) :
    ∀ ps : List (ℕ × ℕ),
      set_theta_list Q t (ps.map (fun p => mkRR Q r p n)) =
        some (ps.map (fun p =>
          Gate.mk r.gateKind p.1 p.2 n (some t) (some (rrPauli Q r)) true
            (rrOp Q r t p.1 p.2 n) []))
  | [] => rfl
  | p :: ps => by
    rw [List.map_cons, List.map_cons, set_theta_list, set_theta_mkRR,
      set_theta_list_map_mkRR Q r t n ps]

theorem set_theta_rrLayer {A Op St : Type} (Q : Collab A Op St) (r : RRKind) (t : A)
    (n : ℕ) : set_theta_list Q t (rrLayer Q r n) = some (specRingLayer Q r n t) :=
  set_theta_list_map_mkRR Q r t n (rrIndices n)

/-- C4 (code bug): the claim (and the spec's no-stale-operator invariant)
says that after `RR_block.set_theta(theta)` the block's operation equals the
reverse-order product of the ring rotators each set to `theta`.  In the
source, `shared_parameter.set_theta` propagates `theta` to the current layer
but then calls `RR_block._set_op`, which re-assigns `self._layer` to freshly
constructed rotators (each at angle 0) and takes their product, so the
stored operation is the angle-0 product for every `theta` (first conjunct).
At the concrete input `RR_block(R_zz, 2).set_theta(1)` this operation
differs from the product of the ring rotators set to angle 1 that the claim
requires (second conjunct). -/
theorem claim_C4_rr_block_stale_operation :
    (∀ (A Op St : Type) (Q : Collab A Op St) (r : RRKind) (n : ℕ) (t : A),
      ∃ B, set_theta Q t (mkRRblock Q r n) = some B ∧ B.theta = some t ∧
        B.operation = (mkRRblock Q r n).operation) ∧
      (∃ B, set_theta Qsyn 1 (mkRRblock Qsyn RRKind.zz 2) = some B ∧
        B.operation ≠ prodGates Qsyn ((specRingLayer Qsyn RRKind.zz 2 1).reverse)) := by
  constructor
  · intro A Op St Q r n t
    have h : set_theta Q t (mkRRblock Q r n) =
        some (Gate.mk (.RrBlockG r) 0 0 n (some t) none true
          (prodGates Q (rrLayer Q r n).reverse) (rrLayer Q r n)) := by
      show set_theta Q t (.mk (.RrBlockG r) 0 0 n (some Q.zeroA) none true
        (prodGates Q (rrLayer Q r n).reverse) (rrLayer Q r n)) = _
      rw [set_theta, set_theta_rrLayer]
    exact ⟨_, h, rfl, rfl⟩
  · have h : set_theta Qsyn 1 (mkRRblock Qsyn RRKind.zz 2) =
        some (Gate.mk (.RrBlockG RRKind.zz) 0 0 2 (some 1) none true
          (prodGates Qsyn (rrLayer Qsyn RRKind.zz 2).reverse) (rrLayer Qsyn RRKind.zz 2)) := by
      show set_theta Qsyn 1 (.mk (.RrBlockG RRKind.zz) 0 0 2 (some Qsyn.zeroA) none true
        (prodGates Qsyn (rrLayer Qsyn RRKind.zz 2).reverse) (rrLayer Qsyn RRKind.zz 2)) = _
      rw [set_theta, set_theta_rrLayer]
    exact ⟨_, h, by decide⟩

mutual

theorem set_theta_isSome {A Op St : Type} (Q : Collab A Op St) (t : A) :
    ∀ g : Gate A Op, hasThetaDeep g = true → (set_theta Q t g).isSome = true
  | .mk k q1 q2 qN th pl ip op layer, h => by
    cases k with
    | Rx => simp [set_theta]
    | Ry => simp [set_theta]
    | Rz => simp [set_theta]
    | Hg => simp [set_theta]
    | SqrtHg => simp [set_theta]
    | FixedRy => simp [set_theta]
    | Sg => simp [set_theta]
    | Tg => simp [set_theta]
    | Rxx => simp [set_theta]
    | Ryy => simp [set_theta]
    | Rzz => simp [set_theta]
    | CnotG => simp [hasThetaDeep] at h
    | CphaseG => simp [hasThetaDeep] at h
    | CzG => simp [hasThetaDeep] at h
    | SqrtiSwapG => simp [hasThetaDeep] at h
    | ChainG e => simp [hasThetaDeep] at h
    | AllToAllG e => simp [hasThetaDeep] at h
    | SharedG =>
      have hl : hasThetaDeepList layer = true := by simpa [hasThetaDeep] using h
      have hsome := set_theta_list_isSome Q t layer hl
      obtain ⟨l2, hl2⟩ := Option.isSome_iff_exists.mp hsome
      rw [set_theta, hl2]
      rfl
    | RrBlockG r =>
      have hl : hasThetaDeepList layer = true := by simpa [hasThetaDeep] using h
      have hsome := set_theta_list_isSome Q t layer hl
      obtain ⟨l2, hl2⟩ := Option.isSome_iff_exists.mp hsome
      rw [set_theta, hl2]
      rfl

theorem set_theta_list_isSome {A Op St : Type} (Q : Collab A Op St) (t : A) :
    ∀ gs : List (Gate A Op), hasThetaDeepList gs = true →
      (set_theta_list Q t gs).isSome = true
  | [], _ => by simp [set_theta_list]
  | g :: gs, h => by
    have hg : hasThetaDeep g = true := by
      have := h
      rw [hasThetaDeepList, Bool.and_eq_true] at this
      exact this.1
    have hgs : hasThetaDeepList gs = true := by
      have := h
      rw [hasThetaDeepList, Bool.and_eq_true] at this
      exact this.2
    obtain ⟨g2, hg2⟩ := Option.isSome_iff_exists.mp (set_theta_isSome Q t g hg)
    obtain ⟨gs2, hgs2⟩ := Option.isSome_iff_exists.mp (set_theta_list_isSome Q t gs hgs)
    rw [set_theta_list, hg2, hgs2]
    rfl

end

theorem foldl_apply_eq_specForwardFold {A Op St : Type} (Q : Collab A Op St) :
    ∀ (gs : List (Gate A Op)) (s : St),
      gs.foldl (fun st g => Q.applyOS g.operation st) s = specForwardFold Q gs s
  | [], _ => rfl
  | g :: gs, s => by
    rw [List.foldl_cons, specForwardFold, foldl_apply_eq_specForwardFold Q gs]

theorem specForwardFold_append {A Op St : Type} (Q : Collab A Op St) :
    ∀ (l : List (Gate A Op)) (g : Gate A Op) (s : St),
      specForwardFold Q (l ++ [g]) s = Q.applyOS g.operation (specForwardFold Q l s)
  | [], _, _ => rfl
  | h :: l, g, s => by
    rw [List.cons_append, specForwardFold, specForwardFold,
      specForwardFold_append Q l]

theorem paramCount_cons_param {A Op : Type} (g : Gate A Op) (gs : List (Gate A Op))
    (hp : g.isParam = true) : paramCount (g :: gs) = paramCount gs + 1 := by
  simp [paramCount, List.filter_cons, hp]

theorem paramCount_cons_nonparam {A Op : Type} (g : Gate A Op) (gs : List (Gate A Op))
    (hp : ¬ g.isParam = true) : paramCount (g :: gs) = paramCount gs := by
  simp [paramCount, List.filter_cons, hp]

theorem setParamsGates_total {A Op St : Type} (Q : Collab A Op St) (angles : List A)
    (rng : ℕ → A) :
    ∀ (gs : List (Gate A Op)) (c : ℕ),
      (∀ g ∈ gs, g.isParam = true → hasThetaDeep g = true) →
      (angles.isEmpty = true ∨ c + paramCount gs ≤ angles.length) →
      (setParamsGates Q angles rng gs c).isSome = true
  | [], _, _, _ => by simp [setParamsGates]
  | g :: gs, c, hset, hlen => by
    by_cases hp : g.isParam = true
    · have hangle : (if angles.isEmpty then some (rng c) else angles.get? c).isSome = true := by
        rcases hlen with h | h
        · simp [h]
        · have hc : c < angles.length := by
            have hcount := paramCount_cons_param g gs hp
            omega
          have hne : angles.isEmpty = false := by
            cases angles
            · simp at hc
            · rfl
          rw [hne, if_neg (by simp), List.get?_eq_get hc]
          rfl
      obtain ⟨a, ha⟩ := Option.isSome_iff_exists.mp hangle
      obtain ⟨g2, hg2⟩ :=
        Option.isSome_iff_exists.mp (set_theta_isSome Q a g (hset g (by simp) hp))
      have hrest := setParamsGates_total Q angles rng gs (c + 1)
        (fun h hm hparam => hset h (by simp [hm]) hparam)
        (by
          rcases hlen with h | h
          · exact Or.inl h
          · right
            have hcount := paramCount_cons_param g gs hp
            omega)
      obtain ⟨gs2, hgs2⟩ := Option.isSome_iff_exists.mp hrest
      simp only [setParamsGates, if_pos hp, ha, hg2, hgs2]
      rfl
    · have hrest := setParamsGates_total Q angles rng gs c
        (fun h hm hparam => hset h (by simp [hm]) hparam)
        (by
          rcases hlen with h | h
          · exact Or.inl h
          · right
            have hcount := paramCount_cons_nonparam g gs hp
            omega)
      obtain ⟨gs2, hgs2⟩ := Option.isSome_iff_exists.mp hrest
      rw [setParamsGates, if_neg hp, hgs2]
      rfl

/-- C1: for every circuit and every well-sized angle list, `run(angles)`
first sets the parameters (the `set_params` loop succeeds, producing the
updated gate sequence `gs2`) and then folds `gs2` onto the initial state in
forward list order: `state = gate[0] * state`, then the next gate, and so
on; equivalently (last conjunct) whenever the sequence splits as
`l ++ [g]`, the result is `g` applied to the fold of `l`, i.e. the last
gate is applied last.  The hypothesis on `hasThetaDeep` records that every
parameterised gate (recursively) responds to `set_theta`, which holds for
every gate the library can mark parameterised. -/
theorem claim_C1_run_forward_order {A Op St : Type} (Q : Collab A Op St)
    (P : PQC A Op St) (angles : List A) (rng : ℕ → A)
    (hlen : angles.length = paramCount P.gates)
    (hset : ∀ g ∈ P.gates, g.isParam = true → hasThetaDeep g = true) :
    ∃ gs2, setParamsGates Q angles rng P.gates 0 = some gs2 ∧
      run Q P angles rng = some (specForwardFold Q gs2 P.initialState) ∧
      ∀ (l : List (Gate A Op)) (g : Gate A Op), gs2 = l ++ [g] →
        specForwardFold Q gs2 P.initialState =
          Q.applyOS g.operation (specForwardFold Q l P.initialState) := by
  have htot := setParamsGates_total Q angles rng P.gates 0 hset (Or.inr (by omega))
  obtain ⟨gs2, hgs2⟩ := Option.isSome_iff_exists.mp htot
  refine ⟨gs2, hgs2, ?_, ?_⟩
  · have hrun : run Q P angles rng =
        some (gs2.foldl (fun st g => Q.applyOS g.operation st) P.initialState) := by
      simp only [run, hgs2]
    rw [hrun, foldl_apply_eq_specForwardFold]
  · intro l g hlg
    rw [hlg, specForwardFold_append]

/-- Witness for C1 on the concrete circuit `Pw` (a parameterised `R_x` and a
`CNOT` on two qubits) with the well-sized angle list `[5]`. -/
theorem claim_C1_run_forward_order_witness :
    (([(5 : ℚ)].length = paramCount Pw.gates) ∧
      (∀ g ∈ Pw.gates, g.isParam = true → hasThetaDeep g = true)) ∧
      ∃ gs2, setParamsGates Qsyn [(5 : ℚ)] rngW Pw.gates 0 = some gs2 ∧
        run Qsyn Pw [(5 : ℚ)] rngW = some (specForwardFold Qsyn gs2 Pw.initialState) ∧
        ∀ (l : List (Gate ℚ SynOp)) (g : Gate ℚ SynOp), gs2 = l ++ [g] →
          specForwardFold Qsyn gs2 Pw.initialState =
            Qsyn.applyOS g.operation (specForwardFold Qsyn l Pw.initialState) :=
  ⟨⟨by decide, by decide⟩,
    claim_C1_run_forward_order Qsyn Pw [(5 : ℚ)] rngW (by decide) (by decide)⟩

theorem rotLike_mkRR {A Op St : Type} (Q : Collab A Op St) (r : RRKind) (p : ℕ × ℕ)
    (n : ℕ) : rotLike (mkRR Q r p n) = true := by
  cases r <;> rfl

theorem derivative_mkRR_isSome {A Op St : Type} (Q : Collab A Op St) (r : RRKind)
    (p : ℕ × ℕ) (n : ℕ) : (derivative Q (mkRR Q r p n)).isSome = true := by
  cases r <;> rfl

theorem rotLikeList_of_forall {A Op : Type} :
    ∀ gs : List (Gate A Op), (∀ g ∈ gs, rotLike g = true) → rotLikeList gs = true
  | [], _ => rfl
  | g :: gs, h => by
    rw [rotLikeList, Bool.and_eq_true]
    exact ⟨h g (by simp), rotLikeList_of_forall gs (fun g2 hm => h g2 (by simp [hm]))⟩

theorem derivative_list_isSome_of_forall {A Op St : Type} (Q : Collab A Op St) :
    ∀ gs : List (Gate A Op), (∀ g ∈ gs, (derivative Q g).isSome = true) →
      (derivative_list Q gs).isSome = true
  | [], _ => rfl
  | g :: gs, h => by
    obtain ⟨d, hd⟩ := Option.isSome_iff_exists.mp (h g (by simp))
    obtain ⟨ds, hds⟩ := Option.isSome_iff_exists.mp
      (derivative_list_isSome_of_forall Q gs (fun g2 hm => h g2 (by simp [hm])))
    rw [derivative_list, hd, hds]
    rfl

theorem rotLikeList_rrLayer {A Op St : Type} (Q : Collab A Op St) (r : RRKind) (n : ℕ) :
    rotLikeList (rrLayer Q r n) = true := by
  apply rotLikeList_of_forall
  intro g hm
  obtain ⟨p, _, hp⟩ := List.mem_map.mp hm
  rw [← hp]
  exact rotLike_mkRR Q r p n

theorem derivative_list_rrLayer_isSome {A Op St : Type} (Q : Collab A Op St)
    (r : RRKind) (n : ℕ) : (derivative_list Q (rrLayer Q r n)).isSome = true := by
  apply derivative_list_isSome_of_forall
  intro g hm
  obtain ⟨p, _, hp⟩ := List.mem_map.mp hm
  rw [← hp]
  exact derivative_mkRR_isSome Q r p n

mutual

theorem rotLike_set_theta {A Op St : Type} (Q : Collab A Op St) (t : A) :
    ∀ g : Gate A Op, rotLike g = true →
      ∃ g2, set_theta Q t g = some g2 ∧ g2.theta = some t ∧ g2.isParam = g.isParam ∧
        rotLike g2 = true ∧ (derivative Q g2).isSome = true
  | .mk k q1 q2 qN th pl ip op layer, h => by
    cases k with
    | Rx => exact ⟨_, rfl, rfl, rfl, rfl, rfl⟩
    | Ry => exact ⟨_, rfl, rfl, rfl, rfl, rfl⟩
    | Rz => exact ⟨_, rfl, rfl, rfl, rfl, rfl⟩
    | Rxx => exact ⟨_, rfl, rfl, rfl, rfl, rfl⟩
    | Ryy => exact ⟨_, rfl, rfl, rfl, rfl, rfl⟩
    | Rzz => exact ⟨_, rfl, rfl, rfl, rfl, rfl⟩
    | Hg => simp [rotLike] at h
    | SqrtHg => simp [rotLike] at h
    | FixedRy => simp [rotLike] at h
    | Sg => simp [rotLike] at h
    | Tg => simp [rotLike] at h
    | CnotG => simp [rotLike] at h
    | CphaseG => simp [rotLike] at h
    | CzG => simp [rotLike] at h
    | SqrtiSwapG => simp [rotLike] at h
    | ChainG e => simp [rotLike] at h
    | AllToAllG e => simp [rotLike] at h
    | SharedG =>
      have hl : rotLikeList layer = true := by simpa [rotLike] using h
      obtain ⟨l2, hl2, _, hds, hrl2⟩ := rotLike_set_theta_list Q t layer hl
      obtain ⟨ds, hds2⟩ := Option.isSome_iff_exists.mp hds
      have hset : set_theta Q t (Gate.mk .SharedG q1 q2 qN th pl ip op layer) =
          some (Gate.mk .SharedG q1 q2 qN (some t) pl ip (prodGates Q l2.reverse) l2) := by
        rw [set_theta, hl2]
      refine ⟨_, hset, rfl, rfl, ?_, ?_⟩
      · rw [rotLike]
        exact hrl2
      · rw [derivative, hds2]
        rfl
    | RrBlockG r =>
      have hl : rotLikeList layer = true := by simpa [rotLike] using h
      obtain ⟨l2, hl2, _, _, _⟩ := rotLike_set_theta_list Q t layer hl
      obtain ⟨ds, hds2⟩ := Option.isSome_iff_exists.mp
        (derivative_list_rrLayer_isSome Q r qN)
      have hset : set_theta Q t (Gate.mk (.RrBlockG r) q1 q2 qN th pl ip op layer) =
          some (Gate.mk (.RrBlockG r) q1 q2 qN (some t) pl ip
            (prodGates Q (rrLayer Q r qN).reverse) (rrLayer Q r qN)) := by
        rw [set_theta, hl2]
      refine ⟨_, hset, rfl, rfl, ?_, ?_⟩
      · rw [rotLike]
        exact rotLikeList_rrLayer Q r qN
      · rw [derivative, hds2]
        rfl

theorem rotLike_set_theta_list {A Op St : Type} (Q : Collab A Op St) (t : A) :
    ∀ gs : List (Gate A Op), rotLikeList gs = true →
      ∃ gs2, set_theta_list Q t gs = some gs2 ∧
        (∀ g2 ∈ gs2, g2.theta = some t ∧ rotLike g2 = true) ∧
        (derivative_list Q gs2).isSome = true ∧ rotLikeList gs2 = true
  | [], _ => ⟨[], rfl, by simp, rfl, rfl⟩
  | g :: gs, h => by
    have hg : rotLike g = true := by
      have := h
      rw [rotLikeList, Bool.and_eq_true] at this
      exact this.1
    have hgs : rotLikeList gs = true := by
      have := h
      rw [rotLikeList, Bool.and_eq_true] at this
      exact this.2
    obtain ⟨g2, hg2, hth, _, hrl, hdg⟩ := rotLike_set_theta Q t g hg
    obtain ⟨gs2, hgs2, hmem, hds, hrls⟩ := rotLike_set_theta_list Q t gs hgs
    obtain ⟨d, hd⟩ := Option.isSome_iff_exists.mp hdg
    obtain ⟨ds, hds2⟩ := Option.isSome_iff_exists.mp hds
    refine ⟨g2 :: gs2, ?_, ?_, ?_, ?_⟩
    · rw [set_theta_list, hg2, hgs2]
    · intro x hx
      rcases List.mem_cons.mp hx with hx | hx
      · rw [hx]; exact ⟨hth, hrl⟩
      · exact hmem x hx
    · rw [derivative_list, hd, hds2]
      rfl
    · rw [rotLikeList, Bool.and_eq_true]
      exact ⟨hrl, hrls⟩

end

theorem getParamsList_cons_param {A Op : Type} (g : Gate A Op) (gs : List (Gate A Op))
    (a : A) (hp : g.isParam = true) (ht : g.theta = some a) :
    getParamsList (g :: gs) = a :: getParamsList gs := by
  simp [getParamsList, List.filter_cons, hp, List.filterMap_cons, ht]

theorem getParamsList_cons_nonparam {A Op : Type} (g : Gate A Op)
    (gs : List (Gate A Op)) (hp : ¬ g.isParam = true) :
    getParamsList (g :: gs) = getParamsList gs := by
  simp [getParamsList, List.filter_cons, hp]

theorem setParamsGates_assign {A Op St : Type} (Q : Collab A Op St) (angles : List A)
    (rng : ℕ → A) :
    ∀ (gs : List (Gate A Op)) (c : ℕ),
      (∀ g ∈ gs, g.isParam = true → rotLike g = true) →
      c + paramCount gs ≤ angles.length →
      ∃ gs2, setParamsGates Q angles rng gs c = some gs2 ∧
        getParamsList gs2 = (angles.drop c).take (paramCount gs) ∧
        gs2.length = gs.length
  | [], c, _, _ => by
    refine ⟨[], by simp [setParamsGates], ?_, rfl⟩
    simp [getParamsList, paramCount]
  | g :: gs, c, hrot, hlen => by
    by_cases hp : g.isParam = true
    · have hcount := paramCount_cons_param g gs hp
      have hc : c < angles.length := by omega
      have hne : angles.isEmpty = false := by
        cases angles
        · simp at hc
        · rfl
      have ha : (if angles.isEmpty then some (rng c) else angles.get? c) =
          some (angles.get ⟨c, hc⟩) := by
        rw [hne, if_neg (by simp), List.get?_eq_get hc]
      obtain ⟨g2, hg2, hth, hp2, _, _⟩ :=
        rotLike_set_theta Q (angles.get ⟨c, hc⟩) g (hrot g (by simp) hp)
      obtain ⟨gs2, hgs2, hget, hlen2⟩ := setParamsGates_assign Q angles rng gs (c + 1)
        (fun h hm hparam => hrot h (by simp [hm]) hparam) (by omega)
      refine ⟨g2 :: gs2, ?_, ?_, ?_⟩
      · simp only [setParamsGates, if_pos hp, ha, hg2, hgs2]
      · rw [getParamsList_cons_param g2 gs2 (angles.get ⟨c, hc⟩)
          (by rw [hp2]; exact hp) hth, hget, hcount]
        have hdrop : angles.drop c = angles.get ⟨c, hc⟩ :: angles.drop (c + 1) :=
          List.drop_eq_getElem_cons hc
        rw [hdrop, List.take_succ_cons]
      · simp [hlen2]
    · have hcount := paramCount_cons_nonparam g gs hp
      obtain ⟨gs2, hgs2, hget, hlen2⟩ := setParamsGates_assign Q angles rng gs c
        (fun h hm hparam => hrot h (by simp [hm]) hparam) (by omega)
      refine ⟨g :: gs2, ?_, ?_, ?_⟩
      · simp only [setParamsGates, if_neg hp, hgs2]
      · rw [getParamsList_cons_nonparam g gs2 hp, hget, hcount]
      · simp [hlen2]

theorem setParamsGates_take {A Op St : Type} (Q : Collab A Op St) (angles : List A)
    (rng : ℕ → A) (k : ℕ) :
    ∀ (gs : List (Gate A Op)) (c : ℕ), c + paramCount gs ≤ k →
      setParamsGates Q angles rng gs c = setParamsGates Q (angles.take k) rng gs c
  | [], _, _ => by simp [setParamsGates]
  | g :: gs, c, h => by
    by_cases hp : g.isParam = true
    · have hcount := paramCount_cons_param g gs hp
      have hc : c < k := by omega
      have hrec := setParamsGates_take Q angles rng k gs (c + 1) (by omega)
      have hangles : (if (angles.take k).isEmpty then some (rng c)
            else (angles.take k).get? c) =
          (if angles.isEmpty then some (rng c) else angles.get? c) := by
        cases angles with
        | nil => simp
        | cons x xs =>
          have hke : (List.take k (x :: xs)).isEmpty = false := by
            cases k with
            | zero => omega
            | succ k2 => rfl
          rw [hke, List.isEmpty_cons, if_neg (by simp), if_neg (by simp),
            List.get?_take hc]
      rcases hq : (if angles.isEmpty then some (rng c) else angles.get? c) with _ | a
      · have hq2 : (if (angles.take k).isEmpty then some (rng c)
            else (angles.take k).get? c) = none := by rw [hangles, hq]
        simp only [setParamsGates, if_pos hp, hq, hq2]
      · have hq2 : (if (angles.take k).isEmpty then some (rng c)
            else (angles.take k).get? c) = some a := by rw [hangles, hq]
        simp only [setParamsGates, if_pos hp, hq, hq2, hrec]
    · have hcount := paramCount_cons_nonparam g gs hp
      have hrec := setParamsGates_take Q angles rng k gs c (by omega)
      simp only [setParamsGates, if_neg hp, hrec]

/-- C10: for every circuit whose parameterised gates are rotation gates or
rotation blocks (`rotLike`, which covers every parameterised gate the
library constructs) and every non-empty angle list strictly longer than the
parameter count `k`, `set_params(angles)` succeeds: the result equals
`set_params` of the first `k` angles alone (the extra entries are silently
ignored), and the parameterised gates end up holding exactly those first
`k` angles in encounter order. -/
theorem claim_C10_set_params_ignores_extra_angles {A Op St : Type} (Q : Collab A Op St)
    (P : PQC A Op St) (angles : List A) (rng : ℕ → A)
    (hrot : ∀ g ∈ P.gates, g.isParam = true → rotLike g = true)
    (hlen : paramCount P.gates < angles.length) :
    ∃ gs2, set_params Q P angles rng = some { P with gates := gs2 } ∧
      set_params Q P angles rng = set_params Q P (angles.take (paramCount P.gates)) rng ∧
      getParamsList gs2 = angles.take (paramCount P.gates) ∧
      gs2.length = P.gates.length := by
  obtain ⟨gs2, hgs2, hget, hlen2⟩ :=
    setParamsGates_assign Q angles rng P.gates 0 hrot (by omega)
  refine ⟨gs2, ?_, ?_, ?_, hlen2⟩
  · simp only [set_params, hgs2]
  · rw [set_params, set_params,
      ← setParamsGates_take Q angles rng (paramCount P.gates) P.gates 0 (by omega)]
  · rw [hget, List.drop_zero]

/-- Witness for C10 on the concrete circuit `Pw` (one parameterised gate)
with the over-long angle list `[7, 9]`. -/
theorem claim_C10_set_params_ignores_extra_angles_witness :
    ((∀ g ∈ Pw.gates, g.isParam = true → rotLike g = true) ∧
      paramCount Pw.gates < [(7 : ℚ), 9].length) ∧
      ∃ gs2, set_params Qsyn Pw [(7 : ℚ), 9] rngW = some { Pw with gates := gs2 } ∧
        set_params Qsyn Pw [(7 : ℚ), 9] rngW =
          set_params Qsyn Pw ([(7 : ℚ), 9].take (paramCount Pw.gates)) rngW ∧
        getParamsList gs2 = [(7 : ℚ), 9].take (paramCount Pw.gates) ∧
        gs2.length = Pw.gates.length :=
  ⟨⟨by decide, by decide⟩,
    claim_C10_set_params_ignores_extra_angles Qsyn Pw [(7 : ℚ), 9] rngW
      (by decide) (by decide)⟩

theorem pySum_eq_specSumDerivs {A Op St : Type} (Q : Collab A Op St) (ds : List Op) :
    pySum Q ds = specSumDerivs Q ds := by
  cases ds <;> rfl

/-- C3: for every `shared_parameter` block over sub-gates that store angles
(`rotLike`: rotation gates or rotation blocks, the gates the class is meant
to wrap) and every angle `t`, `set_theta(t)` succeeds, stores `t` into every
sub-gate, and rebuilds the block's operation as the reverse-order product of
the (updated) sub-gates; the block's `derivative()` then equals the sum of
the sub-gates' derivatives. -/
theorem claim_C3_shared_parameter_propagation {A Op St : Type} (Q : Collab A Op St)
    (layer : List (Gate A Op)) (q1 q2 qN : ℕ) (th : Option A) (pl : Option Op)
    (ip : Bool) (op : Op) (t : A)
    (hrot : ∀ g ∈ layer, rotLike g = true) :
    ∃ layer2, set_theta_list Q t layer = some layer2 ∧
      set_theta Q t (Gate.mk .SharedG q1 q2 qN th pl ip op layer) =
        some (Gate.mk .SharedG q1 q2 qN (some t) pl ip
          (prodGates Q layer2.reverse) layer2) ∧
      (∀ g2 ∈ layer2, g2.theta = some t) ∧
      ∃ ds, derivative_list Q layer2 = some ds ∧
        derivative Q (Gate.mk .SharedG q1 q2 qN (some t) pl ip
          (prodGates Q layer2.reverse) layer2) = some (specSumDerivs Q ds) := by
  obtain ⟨layer2, hl2, hmem, hds, _⟩ :=
    rotLike_set_theta_list Q t layer (rotLikeList_of_forall layer hrot)
  obtain ⟨ds, hds2⟩ := Option.isSome_iff_exists.mp hds
  refine ⟨layer2, hl2, ?_, fun g2 hm => (hmem g2 hm).1, ds, hds2, ?_⟩
  · rw [set_theta, hl2]
  · rw [derivative, hds2]
    show some (pySum Q ds) = some (specSumDerivs Q ds)
    rw [pySum_eq_specSumDerivs]

/-- Witness for C3 on a concrete two-gate shared block (`R_x` on qubit 0 and
`R_z` on qubit 1 of a two-qubit register) at angle 3. -/
theorem claim_C3_shared_parameter_propagation_witness :
    (∀ g ∈ [mkPRot Qsyn GateKind.Rx 0 2, mkPRot Qsyn GateKind.Rz 1 2],
        rotLike g = true) ∧
      ∃ layer2,
        set_theta_list Qsyn 3
          [mkPRot Qsyn GateKind.Rx 0 2, mkPRot Qsyn GateKind.Rz 1 2] = some layer2 ∧
        set_theta Qsyn 3 (Gate.mk .SharedG 0 0 2 (some 0) none true
          (prodGates Qsyn
            [mkPRot Qsyn GateKind.Rx 0 2, mkPRot Qsyn GateKind.Rz 1 2].reverse)
          [mkPRot Qsyn GateKind.Rx 0 2, mkPRot Qsyn GateKind.Rz 1 2]) =
          some (Gate.mk .SharedG 0 0 2 (some 3) none true
            (prodGates Qsyn layer2.reverse) layer2) ∧
        (∀ g2 ∈ layer2, g2.theta = some 3) ∧
        ∃ ds, derivative_list Qsyn layer2 = some ds ∧
          derivative Qsyn (Gate.mk .SharedG 0 0 2 (some 3) none true
            (prodGates Qsyn layer2.reverse) layer2) = some (specSumDerivs Qsyn ds) :=
  ⟨by decide,
    claim_C3_shared_parameter_propagation Qsyn
      [mkPRot Qsyn GateKind.Rx 0 2, mkPRot Qsyn GateKind.Rz 1 2]
      0 0 2 (some 0) none true
      (prodGates Qsyn
        [mkPRot Qsyn GateKind.Rx 0 2, mkPRot Qsyn GateKind.Rz 1 2].reverse)
      3 (by decide)⟩

mutual

theorem wf_set_theta_self {A Op St : Type} (Q : Collab A Op St) :
    ∀ g : Gate A Op, hasThetaMethod g = true → wfG Q g →
      ∀ t : A, (isResponsive g = true → g.theta = some t) → set_theta Q t g = some g
  | .mk k q1 q2 qN th pl ip op layer, hm, hwf, t, hres => by
    cases k with
    | Rx =>
      have hth : th = some t := hres rfl
      subst hth
      obtain ⟨hpl, hop⟩ := hwf
      rw [set_theta, hpl, hop]
    | Ry =>
      have hth : th = some t := hres rfl
      subst hth
      obtain ⟨hpl, hop⟩ := hwf
      rw [set_theta, hpl, hop]
    | Rz =>
      have hth : th = some t := hres rfl
      subst hth
      obtain ⟨hpl, hop⟩ := hwf
      rw [set_theta, hpl, hop]
    | Rxx =>
      have hth : th = some t := hres rfl
      subst hth
      obtain ⟨hpl, hop⟩ := hwf
      rw [set_theta, hpl, hop]
    | Ryy =>
      have hth : th = some t := hres rfl
      subst hth
      obtain ⟨hpl, hop⟩ := hwf
      rw [set_theta, hpl, hop]
    | Rzz =>
      have hth : th = some t := hres rfl
      subst hth
      obtain ⟨hpl, hop⟩ := hwf
      rw [set_theta, hpl, hop]
    | Hg => rfl
    | SqrtHg => rfl
    | FixedRy => rfl
    | Sg => rfl
    | Tg => rfl
    | CnotG => simp [hasThetaMethod, Gate.kind] at hm
    | CphaseG => simp [hasThetaMethod, Gate.kind] at hm
    | CzG => simp [hasThetaMethod, Gate.kind] at hm
    | SqrtiSwapG => simp [hasThetaMethod, Gate.kind] at hm
    | ChainG e => simp [hasThetaMethod, Gate.kind] at hm
    | AllToAllG e => simp [hasThetaMethod, Gate.kind] at hm
    | SharedG =>
      have hth : th = some t := hres rfl
      subst hth
      obtain ⟨hop, hsubs⟩ := hwf
      have hl := wf_set_theta_list_self Q layer t hsubs
      rw [set_theta, hl, hop]
    | RrBlockG r =>
      have hth : th = some t := hres rfl
      subst hth
      obtain ⟨_, hlay, hop⟩ := hwf
      subst hlay
      rw [set_theta, set_theta_rrLayer, hop]

theorem wf_set_theta_list_self {A Op St : Type} (Q : Collab A Op St) :
    ∀ (gs : List (Gate A Op)) (t : A), wfSubs Q t gs → set_theta_list Q t gs = some gs
  | [], _, _ => rfl
  | g :: gs, t, h => by
    obtain ⟨⟨hm, hwf, hres⟩, hrest⟩ := h
    rw [set_theta_list, wf_set_theta_self Q g hm hwf t hres,
      wf_set_theta_list_self Q gs t hrest]

end

theorem wfG_param_self_set {A Op St : Type} (Q : Collab A Op St) (g : Gate A Op)
    (hwf : wfG Q g) (hp : g.isParam = true) :
    ∃ t, g.theta = some t ∧ set_theta Q t g = some g := by
  obtain ⟨k, q1, q2, qN, th, pl, ip, op, layer⟩ := g
  cases k with
  | Rx =>
    cases th with
    | none => exact hwf.2.elim
    | some t2 =>
      refine ⟨t2, rfl, wf_set_theta_self Q _ ?_ hwf t2 (fun _ => rfl)⟩
      rfl
  | Ry =>
    cases th with
    | none => exact hwf.2.elim
    | some t2 =>
      refine ⟨t2, rfl, wf_set_theta_self Q _ ?_ hwf t2 (fun _ => rfl)⟩
      rfl
  | Rz =>
    cases th with
    | none => exact hwf.2.elim
    | some t2 =>
      refine ⟨t2, rfl, wf_set_theta_self Q _ ?_ hwf t2 (fun _ => rfl)⟩
      rfl
  | Rxx =>
    cases th with
    | none => exact hwf.2.elim
    | some t2 =>
      refine ⟨t2, rfl, wf_set_theta_self Q _ ?_ hwf t2 (fun _ => rfl)⟩
      rfl
  | Ryy =>
    cases th with
    | none => exact hwf.2.elim
    | some t2 =>
      refine ⟨t2, rfl, wf_set_theta_self Q _ ?_ hwf t2 (fun _ => rfl)⟩
      rfl
  | Rzz =>
    cases th with
    | none => exact hwf.2.elim
    | some t2 =>
      refine ⟨t2, rfl, wf_set_theta_self Q _ ?_ hwf t2 (fun _ => rfl)⟩
      rfl
  | Hg =>
    cases th with
    | none => simp [wfG] at hwf
    | some t2 => exact ⟨t2, rfl, rfl⟩
  | SqrtHg =>
    cases th with
    | none => simp [wfG] at hwf
    | some t2 => exact ⟨t2, rfl, rfl⟩
  | FixedRy =>
    cases th with
    | none => simp [wfG] at hwf
    | some t2 => exact ⟨t2, rfl, rfl⟩
  | Sg =>
    cases th with
    | none => simp [wfG] at hwf
    | some t2 => exact ⟨t2, rfl, rfl⟩
  | Tg =>
    cases th with
    | none => simp [wfG] at hwf
    | some t2 => exact ⟨t2, rfl, rfl⟩
  | CnotG =>
    subst hwf
    simp [Gate.isParam] at hp
  | CphaseG =>
    subst hwf
    simp [Gate.isParam] at hp
  | CzG =>
    subst hwf
    simp [Gate.isParam] at hp
  | SqrtiSwapG =>
    subst hwf
    simp [Gate.isParam] at hp
  | ChainG e =>
    subst hwf
    simp [Gate.isParam] at hp
  | AllToAllG e =>
    subst hwf
    simp [Gate.isParam] at hp
  | SharedG =>
    cases th with
    | none => exact hwf.elim
    | some t2 =>
      refine ⟨t2, rfl, wf_set_theta_self Q _ ?_ hwf t2 (fun _ => rfl)⟩
      rfl
  | RrBlockG r =>
    cases th with
    | none => exact absurd hwf.1 (by simp)
    | some t2 =>
      refine ⟨t2, rfl, wf_set_theta_self Q _ ?_ hwf t2 (fun _ => rfl)⟩
      rfl

theorem append_cons_isEmpty {α : Type} (pre : List α) (a : α) (l : List α) :
    (pre ++ a :: l).isEmpty = false := by
  cases pre <;> rfl

theorem get_append_cons {α : Type} :
    ∀ (pre : List α) (a : α) (l : List α), (pre ++ a :: l).get? pre.length = some a
  | [], _, _ => rfl
  | _ :: pre, a, l => get_append_cons pre a l

theorem setParamsGates_self {A Op St : Type} (Q : Collab A Op St) (rng : ℕ → A) :
    ∀ (gs : List (Gate A Op)) (pre : List A), (∀ g ∈ gs, wfG Q g) →
      setParamsGates Q (pre ++ getParamsList gs) rng gs pre.length = some gs
  | [], pre, _ => by simp [setParamsGates]
  | g :: gs, pre, hwf => by
    by_cases hp : g.isParam = true
    · obtain ⟨t, hth, hself⟩ := wfG_param_self_set Q g (hwf g (by simp)) hp
      have hg : getParamsList (g :: gs) = t :: getParamsList gs :=
        getParamsList_cons_param g gs t hp hth
      have hrec := setParamsGates_self Q rng gs (pre ++ [t])
        (fun h hm => hwf h (by simp [hm]))
      have ha : (if (pre ++ t :: getParamsList gs).isEmpty then some (rng pre.length)
          else (pre ++ t :: getParamsList gs).get? pre.length) = some t := by
        rw [append_cons_isEmpty, if_neg (by simp), get_append_cons]
      have hrec2 : setParamsGates Q (pre ++ t :: getParamsList gs) rng gs
          (pre.length + 1) = some gs := by
        have heq : pre ++ t :: getParamsList gs = (pre ++ [t]) ++ getParamsList gs := by
          simp
        have hlen : pre.length + 1 = (pre ++ [t]).length := by simp
        rw [heq, hlen]
        exact hrec
      rw [hg]
      simp only [setParamsGates, if_pos hp, ha, hself, hrec2]
    · have hg : getParamsList (g :: gs) = getParamsList gs :=
        getParamsList_cons_nonparam g gs hp
      have hrec := setParamsGates_self Q rng gs pre (fun h hm => hwf h (by simp [hm]))
      rw [hg]
      simp only [setParamsGates, if_neg hp, hrec]

theorem mkParameterised_find {A Op : Type} :
    ∀ (gs : List (Gate A Op)) (c : ℤ) (i : ℕ), 0 ≤ c → i < paramCount gs →
      ∃ p g, pyIndex (c + i) (mkParameterised gs c) = some p ∧
        (mkParameterised gs c).get? p = some (c + i) ∧
        gs.get? p = some g ∧ g.isParam = true ∧
        (gs.filter (fun h => h.isParam)).get? i = some g
  | [], _, i, _, hi => by simp [paramCount] at hi
  | g :: gs, c, i, hc, hi => by
    by_cases hp : g.isParam = true
    · cases i with
      | zero =>
        refine ⟨0, g, ?_, ?_, rfl, hp, ?_⟩
        · rw [mkParameterised, if_pos hp, pyIndex, if_pos (by push_cast; ring)]
        · rw [mkParameterised, if_pos hp]
          show some c = some (c + ((0 : ℕ) : ℤ))
          congr 1
          push_cast
          ring
        · simp [List.filter_cons, hp]
      | succ j =>
        have hcount := paramCount_cons_param g gs hp
        obtain ⟨p2, g2, hfind, hval, hget, hp2, hfil⟩ :=
          mkParameterised_find gs (c + 1) j (by omega) (by omega)
        have hcast : c + ((j + 1 : ℕ) : ℤ) = (c + 1) + (j : ℤ) := by push_cast; ring
        refine ⟨p2 + 1, g2, ?_, ?_, by simpa using hget, hp2, ?_⟩
        · rw [mkParameterised, if_pos hp, pyIndex, if_neg (by push_cast; omega),
            hcast, hfind]
          rfl
        · rw [mkParameterised, if_pos hp]
          show (mkParameterised gs (c + 1)).get? p2 = some (c + ((j + 1 : ℕ) : ℤ))
          rw [hval, hcast]
        · rw [List.filter_cons]
          simp only [hp, if_pos]
          show (gs.filter (fun h => h.isParam)).get? j = some g2
          exact hfil
    · have hcount := paramCount_cons_nonparam g gs hp
      obtain ⟨p2, g2, hfind, hval, hget, hp2, hfil⟩ :=
        mkParameterised_find gs c i hc (by omega)
      refine ⟨p2 + 1, g2, ?_, ?_, by simpa using hget, hp2, ?_⟩
      · rw [mkParameterised, if_neg hp, pyIndex, if_neg (by push_cast; omega), hfind]
        rfl
      · rw [mkParameterised, if_neg hp]
        show (mkParameterised gs c).get? p2 = some (c + i)
        exact hval
      · rw [List.filter_cons]
        simp only [hp]
        simpa using hfil

theorem set_get_self {α : Type} :
    ∀ (l : List α) (n : ℕ) (x : α), l.get? n = some x → l.set n x = l
  | [], n, x, h => by simp at h
  | a :: l, 0, x, h => by
    have : a = x := by simpa using h
    rw [← this]
    rfl
  | a :: l, n + 1, x, h => by
    show a :: l.set n x = a :: l
    rw [set_get_self l n x (by simpa using h)]

theorem get_set_ne {α : Type} :
    ∀ (l : List α) (n m : ℕ) (x : α), n ≠ m → (l.set n x).get? m = l.get? m
  | [], _, _, _, _ => by simp
  | a :: l, 0, 0, x, h => absurd rfl h
  | a :: l, 0, m + 1, x, h => rfl
  | a :: l, n + 1, 0, x, h => rfl
  | a :: l, n + 1, m + 1, x, h => by
    show (l.set n x).get? m = l.get? m
    exact get_set_ne l n m x (by omega)

theorem foldEntries_map_inl {A Op St : Type} (Q : Collab A Op St)
    (gs : List (Gate A Op)) (s : St) :
    foldEntries Q (gs.map Sum.inl) s =
      gs.foldl (fun st g => Q.applyOS g.operation st) s := by
  simp [foldEntries, List.foldl_map, entryOp]

/-- C2: for every circuit whose gates are well formed (`wfG`: operations in
sync with angles, as construction and `set_theta` leave them) and every
logical parameter index `i` below the parameter count, `take_derivative(i)`
folds a gate sequence that differs from the one `run()` folds (with the
current parameters) only at the single flattened position `p` with
`parameterised[p] = i`, where the raw operator `derivative * gate` replaces
the gate; and the gate list returned after the restoring store is the
original `gates` list, value for value. -/
theorem claim_C2_take_derivative_locality {A Op St : Type} (Q : Collab A Op St)
    (P : PQC A Op St) (rng : ℕ → A) (i : ℕ)
    (hwf : ∀ g ∈ P.gates, wfG Q g)
    (halign : P.parameterised = mkParameterised P.gates 0)
    (hi : i < paramCount P.gates)
    (hderiv : ∀ g ∈ P.gates, g.isParam = true → (derivative Q g).isSome = true) :
    ∃ p gate d,
      pyIndex (i : ℤ) P.parameterised = some p ∧
      P.parameterised.get? p = some (i : ℤ) ∧
      P.gates.get? p = some gate ∧
      derivative Q gate = some d ∧
      run Q P (get_params P) rng =
        some (foldEntries Q (P.gates.map Sum.inl) P.initialState) ∧
      take_derivative Q P i =
        some (foldEntries Q
          ((P.gates.map Sum.inl).set p (Sum.inr (Q.mulOO d gate.operation)))
          P.initialState, P.gates) ∧
      ∀ q, q ≠ p →
        ((P.gates.map Sum.inl).set p (Sum.inr (Q.mulOO d gate.operation))).get? q =
          (P.gates.map Sum.inl).get? q := by
  obtain ⟨p, gate, hfind, hval, hget, hpar, _⟩ :=
    mkParameterised_find P.gates 0 i (by omega) hi
  rw [← halign] at hfind hval
  have hzero : ((0 : ℤ) + (i : ℤ)) = (i : ℤ) := by ring
  rw [hzero] at hfind hval
  have hmem : gate ∈ P.gates := List.get?_mem hget
  obtain ⟨d, hd⟩ := Option.isSome_iff_exists.mp (hderiv gate hmem hpar)
  have hsp : setParamsGates Q (get_params P) rng P.gates 0 = some P.gates := by
    have h0 := setParamsGates_self Q rng P.gates [] hwf
    simpa [get_params] using h0
  refine ⟨p, gate, d, hfind, hval, hget, hd, ?_, ?_, ?_⟩
  · have hrun : run Q P (get_params P) rng =
        some (P.gates.foldl (fun st g => Q.applyOS g.operation st) P.initialState) := by
      simp only [run, hsp]
    rw [hrun, foldEntries_map_inl]
  · simp only [take_derivative, hfind, hget, hd]
    rw [set_get_self P.gates p gate hget]
  · intro q hq
    exact get_set_ne (P.gates.map Sum.inl) p q _ (fun h => hq h.symm)

/-- Witness for C2 on the concrete circuit `Pw` at logical parameter 0. -/
theorem claim_C2_take_derivative_locality_witness :
    ((∀ g ∈ Pw.gates, wfG Qsyn g) ∧
      Pw.parameterised = mkParameterised Pw.gates 0 ∧
      0 < paramCount Pw.gates ∧
      (∀ g ∈ Pw.gates, g.isParam = true → (derivative Qsyn g).isSome = true)) ∧
      ∃ p gate d,
        pyIndex ((0 : ℕ) : ℤ) Pw.parameterised = some p ∧
        Pw.parameterised.get? p = some ((0 : ℕ) : ℤ) ∧
        Pw.gates.get? p = some gate ∧
        derivative Qsyn gate = some d ∧
        run Qsyn Pw (get_params Pw) rngW =
          some (foldEntries Qsyn (Pw.gates.map Sum.inl) Pw.initialState) ∧
        take_derivative Qsyn Pw ((0 : ℕ) : ℤ) =
          some (foldEntries Qsyn
            ((Pw.gates.map Sum.inl).set p (Sum.inr (Qsyn.mulOO d gate.operation)))
            Pw.initialState, Pw.gates) ∧
        ∀ q, q ≠ p →
          ((Pw.gates.map Sum.inl).set p
              (Sum.inr (Qsyn.mulOO d gate.operation))).get? q =
            (Pw.gates.map Sum.inl).get? q :=
  ⟨⟨by
      intro g hg
      rcases List.mem_cons.mp hg with h1 | hg2
      · rw [h1]
        exact ⟨rfl, rfl⟩
      · rcases List.mem_cons.mp hg2 with h2 | h3
        · rw [h2]
          exact rfl
        · simp at h3,
    rfl, by decide, by decide⟩,
    claim_C2_take_derivative_locality Qsyn Pw rngW 0
      (by
        intro g hg
        rcases List.mem_cons.mp hg with h1 | hg2
        · rw [h1]
          exact ⟨rfl, rfl⟩
        · rcases List.mem_cons.mp hg2 with h2 | h3
          · rw [h2]
            exact rfl
          · simp at h3)
      rfl (by decide) (by decide)⟩

mutual

theorem flipReady_flip_pauli {A Op St : Type} (Q : Collab A Op St) :
    ∀ g : Gate A Op, flipReady g = true →
      ∃ g2, flip_pauli Q g = some g2 ∧ negPauliRel Q g g2 ∧
        g2.operation = g.operation ∧ g2.theta = g.theta ∧ g2.isParam = g.isParam
  | .mk k q1 q2 qN th pl ip op layer, h => by
    cases k with
    | SharedG =>
      have hl : flipReadyList layer = true := by simpa [flipReady] using h
      obtain ⟨l2, hl2, hrel⟩ := flipReady_flip_pauli_list Q layer hl
      have hset : flip_pauli Q (Gate.mk .SharedG q1 q2 qN th pl ip op layer) =
          some (Gate.mk .SharedG q1 q2 qN th pl ip op l2) := by
        rw [flip_pauli, hl2]
      exact ⟨_, hset, ⟨l2, rfl, hrel⟩, rfl, rfl, rfl⟩
    | RrBlockG r =>
      have hl : flipReadyList layer = true := by simpa [flipReady] using h
      obtain ⟨l2, hl2, hrel⟩ := flipReady_flip_pauli_list Q layer hl
      have hset : flip_pauli Q (Gate.mk (.RrBlockG r) q1 q2 qN th pl ip op layer) =
          some (Gate.mk (.RrBlockG r) q1 q2 qN th pl ip op l2) := by
        rw [flip_pauli, hl2]
      exact ⟨_, hset, ⟨l2, rfl, hrel⟩, rfl, rfl, rfl⟩
    | CnotG => simp [flipReady] at h
    | CphaseG => simp [flipReady] at h
    | CzG => simp [flipReady] at h
    | SqrtiSwapG => simp [flipReady] at h
    | ChainG e => simp [flipReady] at h
    | AllToAllG e => simp [flipReady] at h
    | Rx =>
      obtain ⟨p, hp⟩ := Option.isSome_iff_exists.mp (by simpa [flipReady] using h)
      subst hp
      exact ⟨_, rfl, ⟨p, rfl, rfl⟩, rfl, rfl, rfl⟩
    | Ry =>
      obtain ⟨p, hp⟩ := Option.isSome_iff_exists.mp (by simpa [flipReady] using h)
      subst hp
      exact ⟨_, rfl, ⟨p, rfl, rfl⟩, rfl, rfl, rfl⟩
    | Rz =>
      obtain ⟨p, hp⟩ := Option.isSome_iff_exists.mp (by simpa [flipReady] using h)
      subst hp
      exact ⟨_, rfl, ⟨p, rfl, rfl⟩, rfl, rfl, rfl⟩
    | Hg =>
      obtain ⟨p, hp⟩ := Option.isSome_iff_exists.mp (by simpa [flipReady] using h)
      subst hp
      exact ⟨_, rfl, ⟨p, rfl, rfl⟩, rfl, rfl, rfl⟩
    | SqrtHg =>
      obtain ⟨p, hp⟩ := Option.isSome_iff_exists.mp (by simpa [flipReady] using h)
      subst hp
      exact ⟨_, rfl, ⟨p, rfl, rfl⟩, rfl, rfl, rfl⟩
    | FixedRy =>
      obtain ⟨p, hp⟩ := Option.isSome_iff_exists.mp (by simpa [flipReady] using h)
      subst hp
      exact ⟨_, rfl, ⟨p, rfl, rfl⟩, rfl, rfl, rfl⟩
    | Sg =>
      obtain ⟨p, hp⟩ := Option.isSome_iff_exists.mp (by simpa [flipReady] using h)
      subst hp
      exact ⟨_, rfl, ⟨p, rfl, rfl⟩, rfl, rfl, rfl⟩
    | Tg =>
      obtain ⟨p, hp⟩ := Option.isSome_iff_exists.mp (by simpa [flipReady] using h)
      subst hp
      exact ⟨_, rfl, ⟨p, rfl, rfl⟩, rfl, rfl, rfl⟩
    | Rxx =>
      obtain ⟨p, hp⟩ := Option.isSome_iff_exists.mp (by simpa [flipReady] using h)
      subst hp
      exact ⟨_, rfl, ⟨p, rfl, rfl⟩, rfl, rfl, rfl⟩
    | Ryy =>
      obtain ⟨p, hp⟩ := Option.isSome_iff_exists.mp (by simpa [flipReady] using h)
      subst hp
      exact ⟨_, rfl, ⟨p, rfl, rfl⟩, rfl, rfl, rfl⟩
    | Rzz =>
      obtain ⟨p, hp⟩ := Option.isSome_iff_exists.mp (by simpa [flipReady] using h)
      subst hp
      exact ⟨_, rfl, ⟨p, rfl, rfl⟩, rfl, rfl, rfl⟩

theorem flipReady_flip_pauli_list {A Op St : Type} (Q : Collab A Op St) :
    ∀ gs : List (Gate A Op), flipReadyList gs = true →
      ∃ gs2, flip_pauli_list Q gs = some gs2 ∧ negPauliRelList Q gs gs2
  | [], _ => ⟨[], rfl, rfl⟩
  | g :: gs, h => by
    have hg : flipReady g = true := by
      have := h
      rw [flipReadyList, Bool.and_eq_true] at this
      exact this.1
    have hgs : flipReadyList gs = true := by
      have := h
      rw [flipReadyList, Bool.and_eq_true] at this
      exact this.2
    obtain ⟨g2, hg2, hrel, _, _, _⟩ := flipReady_flip_pauli Q g hg
    obtain ⟨gs2, hgs2, hrels⟩ := flipReady_flip_pauli_list Q gs hgs
    refine ⟨g2 :: gs2, ?_, g2, gs2, rfl, hrel, hrels⟩
    rw [flip_pauli_list, hg2, hgs2]

end

theorem flipGates_spec {A Op St : Type} (Q : Collab A Op St) :
    ∀ gs : List (Gate A Op), (∀ g ∈ gs, g.isParam = true → flipReady g = true) →
      ∃ gs2, flipGates Q gs = some gs2 ∧
        List.Forall₂ (fun g g2 =>
          g2.operation = g.operation ∧ g2.theta = g.theta ∧ g2.isParam = g.isParam ∧
          (g.isParam = false → g2 = g) ∧
          (g.isParam = true → negPauliRel Q g g2)) gs gs2
  | [], _ => ⟨[], rfl, List.Forall₂.nil⟩
  | g :: gs, h => by
    obtain ⟨gs2, hgs2, hrels⟩ :=
      flipGates_spec Q gs (fun x hm hp => h x (by simp [hm]) hp)
    by_cases hp : g.isParam = true
    · obtain ⟨g2, hg2, hrel, hop, hth, hip⟩ :=
        flipReady_flip_pauli Q g (h g (by simp) hp)
      refine ⟨g2 :: gs2, ?_, ?_⟩
      · rw [flipGates, if_pos hp, hg2, hgs2]
      · exact List.Forall₂.cons
          ⟨hop, hth, hip, fun hnp => absurd hp (by simp [hnp]), fun _ => hrel⟩ hrels
    · refine ⟨g :: gs2, ?_, ?_⟩
      · rw [flipGates, if_neg hp, hgs2]
      · exact List.Forall₂.cons
          ⟨rfl, rfl, rfl, fun _ => rfl, fun hp2 => absurd hp2 hp⟩ hrels

/-- Counterexample to C8: the claim says derivative computations performed
after a later `set_params` or `run` call still use the negated generator.
On the concrete circuit `Pw`, after `flip_deriv()` and then
`set_params([3])`, the parameterised `R_x` gate's `derivative()` is built
from the default generator `sigmax` (because `R_x._set_op`, invoked by
`set_theta`, re-assigns `self._pauli = qt.sigmax()`), not from the negated
generator the claim requires. -/
theorem claim_C8_counterexample :
    ∃ P2 gs3 g,
      flip_deriv Qsyn Pw = some P2 ∧
      setParamsGates Qsyn [(3 : ℚ)] rngW P2.gates 0 = some gs3 ∧
      gs3.get? 0 = some g ∧
      derivative Qsyn g =
        some (SynOp.scaleNegHalfI (SynOp.genFock SynOp.sigmax 0 2)) ∧
      derivative Qsyn g ≠
        some (SynOp.scaleNegHalfI (SynOp.genFock (SynOp.negOp SynOp.sigmax) 0 2)) :=
  ⟨_, _, _, rfl, rfl, rfl, rfl, by decide⟩

/-- C8 (amended): `flip_deriv()` negates the stored generator of every
parameterised gate in place — the operation, angle and parameter flag of
every gate are unchanged, non-parameterised gates are untouched, and each
parameterised gate is related to its new value by `negPauliRel` (generator
negated, recursively through blocks, everything else equal).  Derivative
computations performed before the gate's next `set_theta` use that stored
(negated) generator: `derivative` reads the stored `_pauli` field (second
group of conjuncts).  The flip does not persist across `set_params` or
`run`: `set_theta` on a rotation gate re-assigns the generator to the class
default regardless of its current value (third group of conjuncts). -/
theorem claim_C8_flip_deriv_negates_generators {A Op St : Type} (Q : Collab A Op St)
    (P : PQC A Op St)
    (h : ∀ g ∈ P.gates, g.isParam = true → flipReady g = true) :
    (∃ P2, flip_deriv Q P = some P2 ∧
      List.Forall₂ (fun g g2 =>
        g2.operation = g.operation ∧ g2.theta = g.theta ∧ g2.isParam = g.isParam ∧
        (g.isParam = false → g2 = g) ∧
        (g.isParam = true → negPauliRel Q g g2)) P.gates P2.gates) ∧
      (∀ (q1 q2 qN : ℕ) (th : Option A) (p : Op) (ip : Bool) (op : Op)
          (layer : List (Gate A Op)),
        derivative Q (Gate.mk .Rx q1 q2 qN th (some p) ip op layer) =
            some (Q.scaleNegHalfI (Q.genFock p q1 qN)) ∧
          derivative Q (Gate.mk .Ry q1 q2 qN th (some p) ip op layer) =
            some (Q.scaleNegHalfI (Q.genFock p q1 qN)) ∧
          derivative Q (Gate.mk .Rz q1 q2 qN th (some p) ip op layer) =
            some (Q.scaleNegHalfI (Q.genFock p q1 qN)) ∧
          derivative Q (Gate.mk .Rxx q1 q2 qN th (some p) ip op layer) =
            some (Q.scaleNegHalfI (Q.mulOO (Q.genFock p q1 qN) (Q.genFock p q2 qN))) ∧
          derivative Q (Gate.mk .Ryy q1 q2 qN th (some p) ip op layer) =
            some (Q.scaleNegHalfI (Q.mulOO (Q.genFock p q1 qN) (Q.genFock p q2 qN))) ∧
          derivative Q (Gate.mk .Rzz q1 q2 qN th (some p) ip op layer) =
            some (Q.scaleNegHalfI (Q.mulOO (Q.genFock p q1 qN) (Q.genFock p q2 qN)))) ∧
      (∀ (q1 q2 qN : ℕ) (th : Option A) (pl : Option Op) (ip : Bool) (op : Op)
          (layer : List (Gate A Op)) (t : A),
        (set_theta Q t (Gate.mk .Rx q1 q2 qN th pl ip op layer)).map Gate.pauli =
            some (some Q.sigmax) ∧
          (set_theta Q t (Gate.mk .Ry q1 q2 qN th pl ip op layer)).map Gate.pauli =
            some (some Q.sigmay) ∧
          (set_theta Q t (Gate.mk .Rz q1 q2 qN th pl ip op layer)).map Gate.pauli =
            some (some Q.sigmaz) ∧
          (set_theta Q t (Gate.mk .Rxx q1 q2 qN th pl ip op layer)).map Gate.pauli =
            some (some Q.sigmax) ∧
          (set_theta Q t (Gate.mk .Ryy q1 q2 qN th pl ip op layer)).map Gate.pauli =
            some (some Q.sigmay) ∧
          (set_theta Q t (Gate.mk .Rzz q1 q2 qN th pl ip op layer)).map Gate.pauli =
            some (some Q.sigmaz)) := by
  refine ⟨?_, ?_, ?_⟩
  · obtain ⟨gs2, hgs2, hrels⟩ := flipGates_spec Q P.gates h
    refine ⟨{ P with gates := gs2 }, ?_, hrels⟩
    simp only [flip_deriv, hgs2]
  · intro q1 q2 qN th p ip op layer
    exact ⟨rfl, rfl, rfl, rfl, rfl, rfl⟩
  · intro q1 q2 qN th pl ip op layer t
    exact ⟨rfl, rfl, rfl, rfl, rfl, rfl⟩

/-- Witness for the amended C8 on the concrete circuit `Pw`. -/
theorem claim_C8_flip_deriv_negates_generators_witness :
    (∀ g ∈ Pw.gates, g.isParam = true → flipReady g = true) ∧
      ((∃ P2, flip_deriv Qsyn Pw = some P2 ∧
        List.Forall₂ (fun g g2 =>
          g2.operation = g.operation ∧ g2.theta = g.theta ∧ g2.isParam = g.isParam ∧
          (g.isParam = false → g2 = g) ∧
          (g.isParam = true → negPauliRel Qsyn g g2)) Pw.gates P2.gates) ∧
        (∀ (q1 q2 qN : ℕ) (th : Option ℚ) (p : SynOp) (ip : Bool) (op : SynOp)
            (layer : List (Gate ℚ SynOp)),
          derivative Qsyn (Gate.mk .Rx q1 q2 qN th (some p) ip op layer) =
              some (Qsyn.scaleNegHalfI (Qsyn.genFock p q1 qN)) ∧
            derivative Qsyn (Gate.mk .Ry q1 q2 qN th (some p) ip op layer) =
              some (Qsyn.scaleNegHalfI (Qsyn.genFock p q1 qN)) ∧
            derivative Qsyn (Gate.mk .Rz q1 q2 qN th (some p) ip op layer) =
              some (Qsyn.scaleNegHalfI (Qsyn.genFock p q1 qN)) ∧
            derivative Qsyn (Gate.mk .Rxx q1 q2 qN th (some p) ip op layer) =
              some (Qsyn.scaleNegHalfI
                (Qsyn.mulOO (Qsyn.genFock p q1 qN) (Qsyn.genFock p q2 qN))) ∧
            derivative Qsyn (Gate.mk .Ryy q1 q2 qN th (some p) ip op layer) =
              some (Qsyn.scaleNegHalfI
                (Qsyn.mulOO (Qsyn.genFock p q1 qN) (Qsyn.genFock p q2 qN))) ∧
            derivative Qsyn (Gate.mk .Rzz q1 q2 qN th (some p) ip op layer) =
              some (Qsyn.scaleNegHalfI
                (Qsyn.mulOO (Qsyn.genFock p q1 qN) (Qsyn.genFock p q2 qN)))) ∧
        (∀ (q1 q2 qN : ℕ) (th : Option ℚ) (pl : Option SynOp) (ip : Bool)
            (op : SynOp) (layer : List (Gate ℚ SynOp)) (t : ℚ),
          (set_theta Qsyn t (Gate.mk .Rx q1 q2 qN th pl ip op layer)).map Gate.pauli =
              some (some Qsyn.sigmax) ∧
            (set_theta Qsyn t (Gate.mk .Ry q1 q2 qN th pl ip op layer)).map Gate.pauli =
              some (some Qsyn.sigmay) ∧
            (set_theta Qsyn t (Gate.mk .Rz q1 q2 qN th pl ip op layer)).map Gate.pauli =
              some (some Qsyn.sigmaz) ∧
            (set_theta Qsyn t (Gate.mk .Rxx q1 q2 qN th pl ip op layer)).map Gate.pauli =
              some (some Qsyn.sigmax) ∧
            (set_theta Qsyn t (Gate.mk .Ryy q1 q2 qN th pl ip op layer)).map Gate.pauli =
              some (some Qsyn.sigmay) ∧
            (set_theta Qsyn t (Gate.mk .Rzz q1 q2 qN th pl ip op layer)).map Gate.pauli =
              some (some Qsyn.sigmaz))) :=
  ⟨by decide, claim_C8_flip_deriv_negates_generators Qsyn Pw (by decide)⟩
